import Mathlib

/-!
Verification of the node-resume grouping, batching and reconciliation pipeline
(community/modules/scheduler/schedmd-slurm-gcp-v6-controller/modules/slurm_files/scripts/resume.py).

Node names are opaque strings whose only relevant operations are equality,
ordering (Python sorted) and the derived lookups (type prefix, nodeset,
machine type); we embed them as natural numbers, which supports all of these
faithfully.  Python dictionaries are embedded as insertion-ordered association
lists with replace-in-place update semantics; Python sets, all of whose reads
in this program go through sorted(), are embedded as sorted duplicate-free
lists.  Helper functions of util.py (chunked, separate, groupby_unsorted,
nodeset_map, to_hostlist_fast, trim_self_link) are not part of src/ and are
modelled from their documented behaviour where noted.
-/

/-- Node names; embedded as naturals (opaque, ordered, decidable equality). -/
abbrev Node := Nat

/-! ### Insertion-ordered dictionaries (Python dict semantics) -/

/-- Python dict assignment d[k] = v: replaces the value in place if the key is
present (keeping its position), else appends the new pair at the end. -/
def dinsert {κ β : Type} [DecidableEq κ] (k : κ) (v : β) : List (κ × β) → List (κ × β)
  | [] => [(k, v)]
  | (k', v') :: rest => if k' = k then (k, v) :: rest else (k', v') :: dinsert k v rest

/-- Python dict.update(u): assigns every pair of u into d in order. -/
def dupdate {κ β : Type} [DecidableEq κ] (d : List (κ × β)) (u : List (κ × β)) : List (κ × β) :=
  u.foldl (fun acc kv => dinsert kv.1 kv.2 acc) d

/-- Python dict comprehension over a pair list (later pairs overwrite earlier). -/
def dictOf {κ β : Type} [DecidableEq κ] (u : List (κ × β)) : List (κ × β) :=
  dupdate [] u

theorem mem_dinsert {κ β : Type} [DecidableEq κ] (k : κ) (v : β) (d : List (κ × β))
    (x : κ × β) (h : x ∈ dinsert k v d) : x = (k, v) ∨ x ∈ d := by
  induction d with
  | nil => simpa [dinsert] using h
  | cons kv rest ih =>
    rcases kv with ⟨k', v'⟩
    have hunfold : dinsert k v ((k', v') :: rest) =
        if k' = k then (k, v) :: rest else (k', v') :: dinsert k v rest := rfl
    rw [hunfold] at h
    by_cases hk : k' = k
    · rw [if_pos hk] at h
      rcases List.mem_cons.mp h with h | h
      · exact Or.inl h
      · exact Or.inr (List.mem_cons_of_mem _ h)
    · rw [if_neg hk] at h
      rcases List.mem_cons.mp h with h | h
      · exact Or.inr (by simp [h])
      · rcases ih h with h' | h'
        · exact Or.inl h'
        · exact Or.inr (List.mem_cons_of_mem _ h')

theorem mem_dupdate {κ β : Type} [DecidableEq κ] (d u : List (κ × β))
    (x : κ × β) (h : x ∈ dupdate d u) : x ∈ d ∨ x ∈ u := by
  induction u generalizing d with
  | nil => exact Or.inl (by simpa [dupdate] using h)
  | cons kv rest ih =>
    simp only [dupdate, List.foldl_cons] at h
    rcases ih (dinsert kv.1 kv.2 d) (by simpa [dupdate] using h) with h' | h'
    · rcases mem_dinsert kv.1 kv.2 d x h' with h'' | h''
      · exact Or.inr (by simp [h''])
      · exact Or.inl h''
    · exact Or.inr (List.mem_cons_of_mem _ h')

theorem mem_dictOf {κ β : Type} [DecidableEq κ] (u : List (κ × β))
    (x : κ × β) (h : x ∈ dictOf u) : x ∈ u := by
  rcases mem_dupdate [] u x h with h' | h'
  · simp at h'
  · exact h'

/-- Keys of a dict. -/
def dkeys {κ β : Type} (d : List (κ × β)) : List κ := d.map Prod.fst

theorem dkeys_dinsert_nodup {κ β : Type} [DecidableEq κ] (k : κ) (v : β)
    (d : List (κ × β)) (h : (dkeys d).Nodup) : (dkeys (dinsert k v d)).Nodup := by
  induction d with
  | nil => simp [dinsert, dkeys]
  | cons kv rest ih =>
    rcases kv with ⟨k', v'⟩
    simp only [dkeys, List.map_cons, List.nodup_cons] at h
    have hunfold : dinsert k v ((k', v') :: rest) =
        if k' = k then (k, v) :: rest else (k', v') :: dinsert k v rest := rfl
    rw [hunfold]
    by_cases hk : k' = k
    · rw [if_pos hk]
      subst hk
      simp only [dkeys, List.map_cons, List.nodup_cons]
      exact ⟨h.1, h.2⟩
    · rw [if_neg hk]
      simp only [dkeys, List.map_cons, List.nodup_cons]
      refine ⟨?_, ih h.2⟩
      intro hmem
      rcases List.mem_map.mp hmem with ⟨⟨a, b⟩, hab, hfst⟩
      rcases mem_dinsert k v rest ⟨a, b⟩ hab with h' | h'
      · apply hk
        have ha : a = k := by simpa using congrArg Prod.fst h'
        rw [← hfst]
        exact ha
      · exact h.1 (List.mem_map.mpr ⟨⟨a, b⟩, h', hfst⟩)

theorem mem_dinsert_of_mem_ne {κ β : Type} [DecidableEq κ] (k : κ) (v : β)
    (d : List (κ × β)) (x : κ × β) (hx : x ∈ d) (hne : x.1 ≠ k) :
    x ∈ dinsert k v d := by
  induction d with
  | nil => simp at hx
  | cons kv rest ih =>
    rcases kv with ⟨k', v'⟩
    by_cases hk : k' = k
    · simp only [dinsert, if_pos hk]
      rcases List.mem_cons.mp hx with h | h
      · exfalso; exact hne (by simp [h, hk])
      · exact List.mem_cons_of_mem _ h
    · simp only [dinsert, if_neg hk]
      rcases List.mem_cons.mp hx with h | h
      · exact h ▸ List.mem_cons_self _ _
      · exact List.mem_cons_of_mem _ (ih h)

/-! ### First-occurrence deduplication and unsorted groupby (util.groupby_unsorted) -/

/-- First-occurrence deduplication (insertion order of Python dict keys). -/
def firstOccurAux {κ : Type} [DecidableEq κ] (seen : List κ) : List κ → List κ
  | [] => []
  | k :: ks => if k ∈ seen then firstOccurAux seen ks else k :: firstOccurAux (k :: seen) ks

/-- Deduplicate a list keeping the first occurrence of each element. -/
def firstOccur {κ : Type} [DecidableEq κ] (l : List κ) : List κ :=
  firstOccurAux [] l

theorem mem_firstOccurAux {κ : Type} [DecidableEq κ] (seen l : List κ) (x : κ) :
    x ∈ firstOccurAux seen l ↔ x ∈ l ∧ x ∉ seen := by
  induction l generalizing seen with
  | nil => simp [firstOccurAux]
  | cons k ks ih =>
    have hunfold : firstOccurAux seen (k :: ks) =
        if k ∈ seen then firstOccurAux seen ks else k :: firstOccurAux (k :: seen) ks := rfl
    rw [hunfold]
    by_cases hk : k ∈ seen
    · rw [if_pos hk, ih]
      constructor
      · rintro ⟨h1, h2⟩
        exact ⟨List.mem_cons_of_mem _ h1, h2⟩
      · rintro ⟨h1, h2⟩
        rcases List.mem_cons.mp h1 with rfl | h1
        · exact absurd hk h2
        · exact ⟨h1, h2⟩
    · rw [if_neg hk]
      constructor
      · intro hmem
        rcases List.mem_cons.mp hmem with rfl | hmem
        · exact ⟨List.mem_cons_self _ _, hk⟩
        · rcases (ih (k :: seen)).mp hmem with ⟨h1, h2⟩
          exact ⟨List.mem_cons_of_mem _ h1, fun hc => h2 (List.mem_cons_of_mem _ hc)⟩
      · rintro ⟨h1, h2⟩
        rcases List.mem_cons.mp h1 with rfl | h1
        · exact List.mem_cons_self _ _
        · by_cases hx : x = k
          · exact hx ▸ List.mem_cons_self _ _
          · refine List.mem_cons_of_mem _ ((ih (k :: seen)).mpr ⟨h1, fun hc => ?_⟩)
            rcases List.mem_cons.mp hc with h | h
            · exact hx h
            · exact h2 h

theorem mem_firstOccur {κ : Type} [DecidableEq κ] (l : List κ) (x : κ) :
    x ∈ firstOccur l ↔ x ∈ l := by
  simpa [firstOccur] using mem_firstOccurAux [] l x

theorem nodup_firstOccurAux {κ : Type} [DecidableEq κ] (seen l : List κ) :
    (firstOccurAux seen l).Nodup := by
  induction l generalizing seen with
  | nil => simp [firstOccurAux]
  | cons k ks ih =>
    have hunfold : firstOccurAux seen (k :: ks) =
        if k ∈ seen then firstOccurAux seen ks else k :: firstOccurAux (k :: seen) ks := rfl
    rw [hunfold]
    by_cases hk : k ∈ seen
    · rw [if_pos hk]
      exact ih seen
    · rw [if_neg hk, List.nodup_cons]
      refine ⟨fun hc => ?_, ih (k :: seen)⟩
      exact ((mem_firstOccurAux (k :: seen) ks k).mp hc).2 (List.mem_cons_self _ _)

theorem nodup_firstOccur {κ : Type} [DecidableEq κ] (l : List κ) :
    (firstOccur l).Nodup := nodup_firstOccurAux [] l

theorem length_firstOccurAux {κ : Type} [DecidableEq κ] (seen l : List κ) :
    (firstOccurAux seen l).length ≤ l.length := by
  induction l generalizing seen with
  | nil => simp [firstOccurAux]
  | cons k ks ih =>
    have hunfold : firstOccurAux seen (k :: ks) =
        if k ∈ seen then firstOccurAux seen ks else k :: firstOccurAux (k :: seen) ks := rfl
    rw [hunfold]
    by_cases hk : k ∈ seen
    · rw [if_pos hk, List.length_cons]
      exact le_trans (ih seen) (Nat.le_succ _)
    · rw [if_neg hk, List.length_cons, List.length_cons]
      exact Nat.succ_le_succ (ih (k :: seen))

/-- Models util.groupby_unsorted: group a sequence by a key, keys in order of
first occurrence, each group keeping the original order of its members. -/
def groupby_unsorted {α κ : Type} [DecidableEq κ] (seq : List α) (key : α → κ) :
    List (κ × List α) :=
  (firstOccur (seq.map key)).map (fun k => (k, seq.filter (fun x => key x = k)))

theorem mem_groupby_unsorted {α κ : Type} [DecidableEq κ] (seq : List α) (key : α → κ)
    (k : κ) (b : List α) (h : (k, b) ∈ groupby_unsorted seq key) :
    b = seq.filter (fun x => key x = k) ∧ ∃ x ∈ seq, key x = k := by
  rcases List.mem_map.mp h with ⟨k', hk', heq⟩
  have hk : k' = k := congrArg Prod.fst heq
  subst hk
  refine ⟨(congrArg Prod.snd heq).symm, ?_⟩
  have := (mem_firstOccur _ k').mp hk'
  rcases List.mem_map.mp this with ⟨x, hx, hxk⟩
  exact ⟨x, hx, hxk⟩

theorem groupby_unsorted_keys_nodup {α κ : Type} [DecidableEq κ] (seq : List α)
    (key : α → κ) : ((groupby_unsorted seq key).map Prod.fst).Nodup := by
  have hid : (Prod.fst ∘ fun k => (k, seq.filter (fun x => key x = k))) = id := rfl
  rw [groupby_unsorted, List.map_map, hid, List.map_id]
  exact nodup_firstOccur _

theorem groupby_unsorted_bucket_ne_nil {α κ : Type} [DecidableEq κ] (seq : List α)
    (key : α → κ) (k : κ) (b : List α) (h : (k, b) ∈ groupby_unsorted seq key) :
    b ≠ [] := by
  rcases mem_groupby_unsorted seq key k b h with ⟨hb, x, hx, hxk⟩
  subst hb
  intro hnil
  have : x ∈ seq.filter (fun x => key x = k) := List.mem_filter.mpr ⟨hx, by simp [hxk]⟩
  rw [hnil] at this
  simp at this

theorem groupby_unsorted_bucket_key {α κ : Type} [DecidableEq κ] (seq : List α)
    (key : α → κ) (k : κ) (b : List α) (h : (k, b) ∈ groupby_unsorted seq key)
    (x : α) (hx : x ∈ b) : key x = k := by
  rcases mem_groupby_unsorted seq key k b h with ⟨hb, -⟩
  subst hb
  simpa using (List.mem_filter.mp hx).2

theorem groupby_unsorted_bucket_sub {α κ : Type} [DecidableEq κ] (seq : List α)
    (key : α → κ) (k : κ) (b : List α) (h : (k, b) ∈ groupby_unsorted seq key)
    (x : α) (hx : x ∈ b) : x ∈ seq := by
  rcases mem_groupby_unsorted seq key k b h with ⟨hb, -⟩
  subst hb
  exact (List.mem_filter.mp hx).1

theorem groupby_unsorted_bucket_len {α κ : Type} [DecidableEq κ] (seq : List α)
    (key : α → κ) (k : κ) (b : List α) (h : (k, b) ∈ groupby_unsorted seq key) :
    b.length ≤ seq.length := by
  rcases mem_groupby_unsorted seq key k b h with ⟨hb, -⟩
  subst hb
  exact List.length_filter_le _ _

/-! ### Size-bounded chunking (util.chunked) -/

/-- Fuel-driven worker for chunked (fuel bounds the list length). -/
def chunkedF {α : Type} : Nat → List α → Nat → List (List α)
  | 0, _, _ => []
  | _ + 1, [], _ => []
  | fuel + 1, a :: l, n => (a :: l).take n :: chunkedF fuel ((a :: l).drop n) n

/-- Models util.chunked: slice a list into consecutive chunks of at most n
elements (the final chunk may be shorter); yields nothing for n = 0. -/
def chunked {α : Type} (l : List α) (n : Nat) : List (List α) :=
  if n = 0 then [] else chunkedF l.length l n

theorem chunkedF_spec {α : Type} (fuel : Nat) (l : List α) (n : Nat)
    (hn : 0 < n) (hf : l.length ≤ fuel) (c : List α) (h : c ∈ chunkedF fuel l n) :
    c ≠ [] ∧ c.length ≤ n ∧ c.length ≤ l.length ∧ ∀ x ∈ c, x ∈ l := by
  induction fuel generalizing l with
  | zero => simp [chunkedF] at h
  | succ fuel ih =>
    match l with
    | [] => simp [chunkedF] at h
    | a :: l' =>
      simp only [chunkedF, List.mem_cons] at h
      rcases h with rfl | h
      · refine ⟨?_, List.length_take_le _ _, List.length_take_le' _ _, fun x hx => List.mem_of_mem_take hx⟩
        have : 0 < ((a :: l').take n).length := by
          rw [List.length_take]
          exact lt_min hn (by simp)
        intro hc
        rw [hc] at this
        simp at this
      · have hdrop : ((a :: l').drop n).length ≤ fuel := by
          rw [List.length_drop]
          have h1 : (a :: l').length ≤ fuel + 1 := hf
          omega
        rcases ih ((a :: l').drop n) hdrop h with ⟨h1, h2, h3, h4⟩
        refine ⟨h1, h2, ?_, fun x hx => List.mem_of_mem_drop (h4 x hx)⟩
        calc c.length ≤ ((a :: l').drop n).length := h3
          _ ≤ (a :: l').length := by rw [List.length_drop]; omega

theorem mem_chunked {α : Type} (l : List α) (n : Nat) (c : List α)
    (h : c ∈ chunked l n) :
    c ≠ [] ∧ c.length ≤ n ∧ c.length ≤ l.length ∧ ∀ x ∈ c, x ∈ l := by
  by_cases hn : n = 0
  · simp [chunked, hn] at h
  · exact chunkedF_spec l.length l n (Nat.pos_of_ne_zero hn) le_rfl c
      (by simpa [chunked, hn] using h)

theorem chunked_of_short {α : Type} (l : List α) (n : Nat)
    (hn : 0 < n) (hne : l ≠ []) (hlen : l.length ≤ n) : chunked l n = [l] := by
  match l with
  | [] => exact absurd rfl hne
  | a :: l' =>
    have htake : (a :: l').take n = a :: l' := List.take_of_length_le hlen
    have hdrop : (a :: l').drop n = [] := List.drop_eq_nil_of_le hlen
    simp only [chunked, if_neg (Nat.pos_iff_ne_zero.mp hn)]
    simp only [List.length_cons, chunkedF, htake, hdrop]
    match h : l'.length with
    | 0 => simp [chunkedF]
    | m + 1 => simp [chunkedF]

/-! ### Python sorted / set (over node names) -/

/-- Python sorted() on node names. -/
def pysort (l : List Node) : List Node := List.insertionSort (· ≤ ·) l

/-- Python sorted(set(l)): canonical (sorted, duplicate-free) form of a set of
node names.  Set iteration order is unobservable in resume.py (every read of a
set goes through sorted() or set algebra), so the sorted form is faithful. -/
def sortDedup (l : List Node) : List Node := pysort (firstOccur l)

theorem sortDedup_sorted (l : List Node) : (sortDedup l).Sorted (· ≤ ·) :=
  List.sorted_insertionSort _ _

theorem sortDedup_perm (l : List Node) : (sortDedup l).Perm (firstOccur l) :=
  List.perm_insertionSort _ _

theorem mem_sortDedup (l : List Node) (x : Node) : x ∈ sortDedup l ↔ x ∈ l := by
  rw [(sortDedup_perm l).mem_iff]
  exact mem_firstOccur l x

theorem sortDedup_nodup (l : List Node) : (sortDedup l).Nodup :=
  (sortDedup_perm l).nodup_iff.mpr (nodup_firstOccur l)

theorem sortDedup_ext (l₁ l₂ : List Node) (h : ∀ x, x ∈ l₁ ↔ x ∈ l₂) :
    sortDedup l₁ = sortDedup l₂ := by
  apply List.eq_of_perm_of_sorted _ (sortDedup_sorted l₁) (sortDedup_sorted l₂)
  apply (List.perm_ext_iff_of_nodup (sortDedup_nodup l₁) (sortDedup_nodup l₂)).mpr
  intro a
  rw [mem_sortDedup, mem_sortDedup]
  exact h a

theorem length_sortDedup (l : List Node) : (sortDedup l).length ≤ l.length := by
  calc (sortDedup l).length = (firstOccur l).length := (sortDedup_perm l).length_eq
    _ ≤ l.length := length_firstOccurAux [] l

/-- Models util.separate: split a list by a predicate, returning
(elements where the predicate is false, elements where it is true),
each in original order. -/
def separate {α : Type} (pred : α → Bool) (l : List α) : List α × List α :=
  (l.filter (fun x => !pred x), l.filter pred)

/-! ### Decimal rendering of naturals (Python str(n) in f-strings) -/

/-- Little-endian decimal digits, computed with structural fuel so that the
kernel can evaluate it; agrees with Mathlib's Nat.digits 10 (see below). -/
def natDigitsF : Nat → Nat → List Nat
  | 0, _ => []
  | fuel + 1, n => if n = 0 then [] else n % 10 :: natDigitsF fuel (n / 10)

/-- Little-endian decimal digits of n. -/
def natDigits (n : Nat) : List Nat := natDigitsF n n

theorem natDigitsF_eq_digits (fuel n : Nat) (h : n ≤ fuel) :
    natDigitsF fuel n = Nat.digits 10 n := by
  induction fuel generalizing n with
  | zero =>
    have : n = 0 := Nat.le_zero.mp h
    subst this
    simp [natDigitsF]
  | succ fuel ih =>
    by_cases hn : n = 0
    · subst hn
      simp [natDigitsF]
    · have hpos : 0 < n := Nat.pos_of_ne_zero hn
      have hdiv : n / 10 ≤ fuel := by
        have : n / 10 < n := Nat.div_lt_self hpos (by omega)
        omega
      have hunfold : natDigitsF (fuel + 1) n =
          if n = 0 then [] else n % 10 :: natDigitsF fuel (n / 10) := rfl
      rw [hunfold, if_neg hn, ih (n / 10) hdiv]
      exact (Nat.digits_def' (by omega) hpos).symm

theorem natDigits_eq_digits (n : Nat) : natDigits n = Nat.digits 10 n :=
  natDigitsF_eq_digits n n le_rfl


/-- Most-significant-first decimal digit list of n, with a single 0 digit for
n = 0 (as Python prints it). -/
def paddedDigits (n : Nat) : List Nat :=
  if n = 0 then [0] else (natDigits n).reverse

/-- Python str(n) for a natural number: decimal digits, most significant first. -/
def natStr (n : Nat) : String :=
  String.mk ((paddedDigits n).map Nat.digitChar)

theorem paddedDigits_lt10 (n : Nat) (d : Nat) (hd : d ∈ paddedDigits n) : d < 10 := by
  by_cases hn : n = 0
  · simp [paddedDigits, hn] at hd
    omega
  · simp only [paddedDigits, if_neg hn, List.mem_reverse] at hd
    rw [natDigits_eq_digits] at hd
    exact Nat.digits_lt_base (by omega) hd

theorem digitChar_inj_lt10 (a b : Nat) (ha : a < 10) (hb : b < 10)
    (h : Nat.digitChar a = Nat.digitChar b) : a = b := by
  interval_cases a <;> interval_cases b <;> simp_all [Nat.digitChar]

theorem digitChar_mem_digits (a : Nat) (ha : a < 10) :
    Nat.digitChar a ∈ ['0', '1', '2', '3', '4', '5', '6', '7', '8', '9'] := by
  interval_cases a <;> simp [Nat.digitChar]

theorem natStr_chars (n : Nat) (c : Char) (h : c ∈ (natStr n).data) :
    c ∈ ['0', '1', '2', '3', '4', '5', '6', '7', '8', '9'] := by
  have hdata : (natStr n).data = (paddedDigits n).map Nat.digitChar := rfl
  rw [hdata] at h
  rcases List.mem_map.mp h with ⟨d, hd, rfl⟩
  exact digitChar_mem_digits d (paddedDigits_lt10 n d hd)

theorem natStr_no_colon (n : Nat) : ':' ∉ (natStr n).data := by
  intro h
  have := natStr_chars n ':' h
  simp at this

theorem natStr_ne_none_str (n : Nat) : natStr n ≠ "None" := by
  intro h
  have hN : 'N' ∈ (natStr n).data := by rw [h]; simp
  have := natStr_chars n 'N' hN
  simp at this

theorem map_digitChar_inj (xs ys : List Nat) (hx : ∀ x ∈ xs, x < 10)
    (hy : ∀ y ∈ ys, y < 10) (h : xs.map Nat.digitChar = ys.map Nat.digitChar) :
    xs = ys := by
  induction xs generalizing ys with
  | nil =>
    cases ys with
    | nil => rfl
    | cons y ys' => simp at h
  | cons x xs' ih =>
    cases ys with
    | nil => simp at h
    | cons y ys' =>
      simp only [List.map_cons, List.cons_eq_cons] at h
      have hxy : x = y := digitChar_inj_lt10 x y (hx x (by simp)) (hy y (by simp)) h.1
      have := ih ys' (fun a ha => hx a (List.mem_cons_of_mem _ ha))
        (fun a ha => hy a (List.mem_cons_of_mem _ ha)) h.2
      rw [hxy, this]

theorem natStr_injective (m n : Nat) (h : natStr m = natStr n) : m = n := by
  have hdata : (paddedDigits m).map Nat.digitChar = (paddedDigits n).map Nat.digitChar :=
    congrArg String.data h
  have hpad : paddedDigits m = paddedDigits n :=
    map_digitChar_inj _ _ (paddedDigits_lt10 m) (paddedDigits_lt10 n) hdata
  by_cases hm : m = 0 <;> by_cases hn : n = 0
  · omega
  · exfalso
    simp only [paddedDigits, if_pos hm, if_neg hn] at hpad
    have hdig : Nat.digits 10 n = [0] := by
      rw [← natDigits_eq_digits]
      have := congrArg List.reverse hpad
      simpa using this.symm
    have : n = Nat.ofDigits 10 (Nat.digits 10 n) := (Nat.ofDigits_digits 10 n).symm
    rw [hdig] at this
    simp [Nat.ofDigits] at this
    exact hn this
  · exfalso
    simp only [paddedDigits, if_neg hm, if_pos hn] at hpad
    have hdig : Nat.digits 10 m = [0] := by
      rw [← natDigits_eq_digits]
      have := congrArg List.reverse hpad
      simpa using this
    have : m = Nat.ofDigits 10 (Nat.digits 10 m) := (Nat.ofDigits_digits 10 m).symm
    rw [hdig] at this
    simp [Nat.ofDigits] at this
    exact hm this
  · simp only [paddedDigits, if_neg hm, if_neg hn] at hpad
    have hdig : Nat.digits 10 m = Nat.digits 10 n := by
      rw [← natDigits_eq_digits, ← natDigits_eq_digits]
      have := congrArg List.reverse hpad
      simpa using this
    have := congrArg (Nat.ofDigits 10) hdig
    rwa [Nat.ofDigits_digits, Nat.ofDigits_digits] at this

/-! ### Data model: resume.py constants, configuration lookup, resume file data -/

/-- PLACEMENT_MAX_CNT (resume.py line 50). -/
def PLACEMENT_MAX_CNT : Nat := 150

/-- BULK_INSERT_LIMIT (resume.py line 54). -/
def BULK_INSERT_LIMIT : Nat := 5000

/-- Static nodeset configuration, as read through util.Lookup. -/
structure NodesetCfg where
  nodeset_name : String
  is_tpu : Bool
  vmcount : Nat
  enable_placement : Bool
  deriving DecidableEq

/-- Pure fragment of util.Lookup used by resume.py.  In slurm-gcp a node name
is cluster-nodeset-index; its type prefix (node_prefix) is cluster-nodeset and
determines the nodeset, so the nodeset lookup factors through the prefix. -/
structure Lookup where
  cluster_name : String
  node_pfx : Node → String
  cfg_nodeset : String → NodesetCfg
  partition_is_tpu : String → Bool
  machine_type : Node → String
  node_template : Node → String

/-- lkp.node_nodeset(node): the nodeset configuration of a node. -/
def Lookup.node_nodeset (lkp : Lookup) (n : Node) : NodesetCfg :=
  lkp.cfg_nodeset (lkp.node_pfx n)

/-- lkp.node_is_tpu(node). -/
def Lookup.node_is_tpu (lkp : Lookup) (n : Node) : Bool :=
  (lkp.node_nodeset n).is_tpu

/-- One record of the resume file (resume.py ResumeJobData), generic in the
node-name representation. -/
structure ResumeJobData (ν : Type) where
  job_id : Nat
  partition : String
  nodes_alloc : List ν
  deriving DecidableEq

/-- Resume file contents (resume.py ResumeData). -/
structure ResumeData (ν : Type) where
  jobs : List (ResumeJobData ν)
  deriving DecidableEq

/-! ### Placement groups (resume.py lines 502-588) -/

/-- Models valid_placement_nodes (resume.py lines 578-588): machine-type
family is the text before the first dash. -/
def invalid_types : List String := ["e2", "t2d", "n1", "t2a", "m1", "m2", "m3"]

/-- Family of a machine type: mt.split("-")[0], the characters before the
first dash. -/
def machineFamily (mt : String) : String :=
  String.mk (mt.data.takeWhile (fun c => c ≠ '-'))

/-- valid_placement_nodes(nodelist): false iff some node's machine family is
in the disallowed set (the source loop returns False on the first hit). -/
def valid_placement_nodes (lkp : Lookup) (nodelist : List Node) : Bool :=
  nodelist.all (fun node => !(invalid_types.contains (machineFamily (lkp.machine_type node))))

/-- Placement-group name for chunk i
(resume.py line 524: cluster-slurmgcp-managed-nodeset-job-i). -/
def pg_name (lkp : Lookup) (nodeset_name : String) (job_id : Nat) (i : Nat) : String :=
  lkp.cluster_name ++ "-slurmgcp-managed-" ++ nodeset_name ++ "-" ++
    natStr job_id ++ "-" ++ natStr i

/-- Value returned by create_nodeset_placement_groups (resume.py lines
510-526, 575): a placement_group-name -> node-list dict.  The key none is the
canned "no placement policy" bucket; the API traffic of lines 535-574 does not
alter this return value. -/
def create_nodeset_placement_groups (lkp : Lookup) (node_list : List Node)
    (job_id : Nat) : List (Option String × List Node) :=
  let no_pg : List (Option String × List Node) := [(none, node_list)]
  if node_list.length < 2 then no_pg
  else
    let model := node_list.headD 0
    let nodeset := lkp.node_nodeset model
    if !(nodeset.enable_placement && valid_placement_nodes lkp node_list) then no_pg
    else
      dictOf ((chunked node_list PLACEMENT_MAX_CNT).enum.map
        (fun ic => (some (pg_name lkp nodeset.nodeset_name job_id ic.1), ic.2)))

/-- Outcome of one ensure_execute(create_placement_request(...)) call as seen
by classify_result (resume.py lines 542-548): either a successfully submitted
operation, or an exception carrying error_details whose entries each expose
e.get("reason"). -/
inductive PgOpResult : Type where
  | ok : PgOpResult
  | exc : List (Option String) → PgOpResult
  deriving DecidableEq

/-- classify_result (resume.py lines 542-548). -/
def classify_result (op : PgOpResult) : String :=
  match op with
  | PgOpResult.ok => "submitted"
  | PgOpResult.exc ds => if ds.all (fun r => r = some "alreadyExists") then "redundant" else "failed"

/-- Observable behaviour of one create_nodeset_placement_groups call: the
returned dict, the placement-group creation requests issued (line 535), and
the classification of each request's outcome (line 550). -/
structure PgRun where
  groups : List (Option String × List Node)
  requests : List String
  classifications : List (String × String)
  deriving DecidableEq

/-- create_nodeset_placement_groups together with its side traffic, the
provider's per-request outcome supplied as a function of the group name. -/
def create_nodeset_placement_groups_run (lkp : Lookup) (node_list : List Node)
    (job_id : Nat) (responses : String → PgOpResult) : PgRun :=
  let no_pg : List (Option String × List Node) := [(none, node_list)]
  if node_list.length < 2 then { groups := no_pg, requests := [], classifications := [] }
  else
    let model := node_list.headD 0
    let nodeset := lkp.node_nodeset model
    if !(nodeset.enable_placement && valid_placement_nodes lkp node_list) then
      { groups := no_pg, requests := [], classifications := [] }
    else
      let groups := dictOf ((chunked node_list PLACEMENT_MAX_CNT).enum.map
        (fun ic => (some (pg_name lkp nodeset.nodeset_name job_id ic.1), ic.2)))
      let names := groups.filterMap (fun kv => kv.1)
      { groups := groups,
        requests := names,
        classifications := names.map (fun nm => (nm, classify_result (responses nm))) }

/-- Models util.nodeset_map (not in src/): group a node list into a
nodeset_name -> node-list map, insertion-ordered. -/
def nodeset_map (lkp : Lookup) (l : List Node) : List (String × List Node) :=
  groupby_unsorted l (fun n => (lkp.node_nodeset n).nodeset_name)

/-- create_placement_groups (resume.py lines 502-507): per-nodeset results
merged with dict.update. -/
def create_placement_groups (lkp : Lookup) (node_list : List Node) (job_id : Nat) :
    List (Option String × List Node) :=
  (nodeset_map lkp node_list).foldl
    (fun pgs kv => dupdate pgs (create_nodeset_placement_groups lkp kv.2 job_id)) []

/-! ### group_nodes_bulk (resume.py lines 229-317) -/

/-- Auxiliary per-job grouping record (resume.py JobGroup, lines 246-250). -/
structure JobGroup where
  job_id : Option Nat
  partition : Option String
  placement_groups : List (Option String × List Node)
  deriving DecidableEq

/-- One bulk-insert chunk (resume.py BulkChunk, lines 229-236).  The field
pfx embeds the source field named prefix. -/
structure BulkChunk where
  nodes : List Node
  pfx : String
  chunk_idx : Nat
  job_id : Option Nat
  partition : Option String
  placement_group : Option String
  deriving DecidableEq

/-- Python str() of an optional job id as an f-string renders it
(None prints as the literal None). -/
def job_str : Option Nat → String
  | some j => natStr j
  | none => "None"

/-- group_name (resume.py lines 310-315). -/
def group_name (chunk : BulkChunk) : String :=
  match chunk.placement_group with
  | some pg =>
    chunk.pfx ++ ":job" ++ job_str chunk.job_id ++ ":" ++ pg ++ ":" ++ natStr chunk.chunk_idx
  | none =>
    match chunk.job_id with
    | some j => chunk.pfx ++ ":job" ++ natStr j ++ ":" ++ natStr chunk.chunk_idx
    | none => chunk.pfx ++ ":" ++ natStr chunk.chunk_idx

/-- The group-identifier format exactly as the specification claims it
(C3): placement_group component omitted when absent, job id component
omitted when absent. -/
def spec_group_name (chunk : BulkChunk) : String :=
  match chunk.placement_group, chunk.job_id with
  | some pg, some j => chunk.pfx ++ ":job" ++ natStr j ++ ":" ++ pg ++ ":" ++ natStr chunk.chunk_idx
  | some pg, none => chunk.pfx ++ ":" ++ pg ++ ":" ++ natStr chunk.chunk_idx
  | none, some j => chunk.pfx ++ ":job" ++ natStr j ++ ":" ++ natStr chunk.chunk_idx
  | none, none => chunk.pfx ++ ":" ++ natStr chunk.chunk_idx

/-- The JobGroup built for one resume-file job (resume.py lines 255-272);
nset is the deduplicated input node set. -/
def job_group_of (lkp : Lookup) (nset : List Node) (job : ResumeJobData Node) : JobGroup :=
  let nodes_resume := nset.filter (fun n => n ∈ job.nodes_alloc)
  if lkp.partition_is_tpu job.partition then
    { job_id := some job.job_id, partition := some job.partition,
      placement_groups := [(none, pysort nodes_resume)] }
  else
    let pgs := create_placement_groups lkp job.nodes_alloc job.job_id
    let pgs := pgs.map (fun kv => (kv.1, sortDedup (kv.2.filter (fun n => n ∈ nodes_resume))))
    { job_id := some job.job_id, partition := some job.partition, placement_groups := pgs }

/-- The job_groups dict of resume.py lines 252-272, keyed by job id
(a later duplicate id overwrites in place, like the Python dict). -/
def job_groups_jobs (lkp : Lookup) (nset : List Node) (jobs : List (ResumeJobData Node)) :
    List (Nat × JobGroup) :=
  jobs.foldl (fun acc job => dinsert job.job_id (job_group_of lkp nset job) acc) []

/-- chunk_nodes (resume.py lines 289-293). -/
def chunk_nodes (lkp : Lookup) (nodes : List Node) : List (List Node) :=
  let chunk_size :=
    if !nodes.isEmpty && lkp.node_is_tpu (nodes.headD 0) then
      (lkp.node_nodeset (nodes.headD 0)).vmcount
    else BULK_INSERT_LIMIT
  chunked nodes chunk_size

/-- nodes.difference(chain of all job allocations) (resume.py lines 274-275). -/
def all_jobless_nodes (nset : List Node) (rd : ResumeData Node) : List Node :=
  nset.filter (fun n => !(rd.jobs.any (fun j => n ∈ j.nodes_alloc)))

/-- The conventional jobless nodes (resume.py line 276, first component of
util.separate). -/
def jobless_nodes (nset : List Node) (rd : ResumeData Node) (lkp : Lookup) : List Node :=
  (separate (fun n => lkp.node_is_tpu n) (all_jobless_nodes nset rd)).1

/-- The TPU jobless nodes (resume.py line 276, second component). -/
def jobless_nodes_tpu (nset : List Node) (rd : ResumeData Node) (lkp : Lookup) : List Node :=
  (separate (fun n => lkp.node_is_tpu n) (all_jobless_nodes nset rd)).2

/-- The Normal_None entry of job_groups (resume.py lines 278-282). -/
def normal_none_group (nset : List Node) (rd : ResumeData Node) (lkp : Lookup) : JobGroup :=
  { job_id := none, partition := none,
    placement_groups := create_placement_groups lkp (pysort (jobless_nodes nset rd lkp)) 0 }

/-- The TPU_None entry of job_groups (resume.py lines 283-287). -/
def tpu_none_group (nset : List Node) (rd : ResumeData Node) (lkp : Lookup) : JobGroup :=
  { job_id := none, partition := none,
    placement_groups := [(none, pysort (jobless_nodes_tpu nset rd lkp))] }

/-- The ordered list of JobGroup values of the job_groups dict (resume.py
lines 252-287): the per-job groups, then Normal_None, then TPU_None; nset is
the deduplicated input node set. -/
def job_groups_values (nset : List Node) (rd : ResumeData Node) (lkp : Lookup) :
    List JobGroup :=
  ((job_groups_jobs lkp nset rd.jobs).map (fun kv => kv.2)) ++
    [normal_none_group nset rd lkp, tpu_none_group nset rd lkp]

/-- The grouped_nodes list comprehension (resume.py lines 295-308) applied to
the deduplicated node set. -/
def grouped_nodes_core (nset : List Node) (rd : ResumeData Node) (lkp : Lookup) :
    List BulkChunk :=
  (job_groups_values nset rd lkp).flatMap (fun job =>
    job.placement_groups.flatMap (fun pgkv =>
      (groupby_unsorted pgkv.2 (fun n => lkp.node_pfx n)).flatMap (fun prkv =>
        (chunk_nodes lkp prkv.2).enum.map (fun ic =>
          { nodes := ic.2, pfx := prkv.1, chunk_idx := ic.1, job_id := job.job_id,
            partition := job.partition, placement_group := pgkv.1 }))))

/-- The grouped_nodes list of one group_nodes_bulk invocation (the input list
is collapsed to a set at line 244; a missing resume file means no jobs,
line 241-242). -/
def grouped_nodes_of (nodes : List Node) (resume_data : Option (ResumeData Node))
    (lkp : Lookup) : List BulkChunk :=
  grouped_nodes_core (sortDedup nodes) (resume_data.getD { jobs := [] }) lkp

/-- group_nodes_bulk (resume.py lines 239-317): the returned
group-name -> BulkChunk dict. -/
def group_nodes_bulk (nodes : List Node) (resume_data : Option (ResumeData Node))
    (lkp : Lookup) : List (String × BulkChunk) :=
  dictOf ((grouped_nodes_of nodes resume_data lkp).map (fun c => (group_name c, c)))

/-- Python str.join: sep.join(parts). -/
def strJoin (sep : String) : List String → String
  | [] => ""
  | [x] => x
  | x :: y :: xs => x ++ sep ++ strJoin sep (y :: xs)

/-! ### create_instances_request (resume.py lines 160-226), batch-shape fields -/

/-- The batch-shape fields of the bulkInsert request body built by
create_instances_request; properties merged from templates/reservations do not
affect them and are not modelled. -/
structure BulkInsertBody where
  count : Nat
  minCount : Option Nat
  sourceInstanceTemplate : String
  perInstanceProperties : List Node
  deriving DecidableEq

/-- create_instances_request (resume.py lines 160-226): none models a failed
assert (line 162 and line 176); otherwise the body with count = len(nodes) and
minCount left unset exactly when a placement group is given (lines 171-179). -/
def create_instances_request (lkp : Lookup) (nodes : List Node)
    (placement_group : Option String) : Option BulkInsertBody :=
  if !(0 < nodes.length && nodes.length ≤ BULK_INSERT_LIMIT) then none
  else
    let template := lkp.node_template (nodes.headD 0)
    match placement_group with
    | some _ =>
      if !(nodes.length ≤ PLACEMENT_MAX_CNT) then none
      else some { count := nodes.length, minCount := none,
                  sourceInstanceTemplate := template, perInstanceProperties := nodes }
    | none =>
      some { count := nodes.length, minCount := some 1,
             sourceInstanceTemplate := template, perInstanceProperties := nodes }

/-! ### down_nodes_notify_jobs (resume.py lines 457-474) -/

/-- Scheduler commands issued through run(...) by down_nodes_notify_jobs. -/
inductive SchedCmd : Type where
  | down : String → String → SchedCmd
  | update_job : Nat → String → SchedCmd
  | notify_job : Nat → String → SchedCmd
  deriving DecidableEq

/-- Modelled from the spec: util.to_hostlist_fast (not in src/) compresses a
hostname collection into a single host-range string; modelled as a
comma-joined rendering of the collection. -/
def to_hostlist_fast (nodes : List String) : String :=
  strJoin "," nodes

/-- Characters the Python shlex quoting rule leaves bare
(ASCII word characters plus the characters @ % + = : , . / and dash). -/
def shlex_safe (c : Char) : Bool :=
  (c.isAlpha && c.toNat < 128) || (c.isDigit) || c = '_' || c = '@' || c = '%' ||
    c = '+' || c = '=' || c = ':' || c = ',' || c = '.' || c = '/' || c = '-'

/-- Single-quote escaping of Python shlex.quote: each quote character is
replaced by quote, double-quote, quote, double-quote, quote. -/
def sq_escape : List Char → List Char
  | [] => []
  | c :: cs =>
    if c = '\'' then '\'' :: '"' :: '\'' :: '"' :: '\'' :: sq_escape cs
    else c :: sq_escape cs

/-- Models Python shlex.quote (stdlib, not in src/). -/
def shlex_quote (s : String) : String :=
  if s = "" then "''"
  else if s.data.all shlex_safe then s
  else "'" ++ String.mk (sq_escape s.data) ++ "'"

/-- down_nodes_notify_jobs (resume.py lines 457-474): the scheduler commands
issued, in order.  Node names here are the untranslated hostname strings. -/
def down_nodes_notify_jobs (nodes : List String) (reason : String)
    (resume_data : Option (ResumeData String)) : List SchedCmd :=
  let nodelist := to_hostlist_fast nodes
  let reason_quoted := shlex_quote reason
  let downCmd := SchedCmd.down nodelist reason_quoted
  match resume_data with
  | none => [downCmd]
  | some rd =>
    downCmd :: rd.jobs.flatMap (fun job =>
      if (job.nodes_alloc.filter (fun n => n ∈ nodes)).isEmpty then []
      else [SchedCmd.update_job job.job_id reason_quoted,
            SchedCmd.notify_job job.job_id reason_quoted])

/-! ### Reconciliation of completed bulk operations (resume.py lines 424-448) -/

/-- One entry of a failed per-instance insert's error["errors"] list. -/
structure InsErr where
  code : String
  message : Option String
  deriving DecidableEq

/-- One per-instance insert operation returned by get_insert_operations:
its targetLink and, if failed, its error["errors"] list. -/
structure InsOp where
  targetLink : String
  error : Option (List InsErr)
  deriving DecidableEq

/-- Models util.trim_self_link (not in src/): the final slash-separated
segment of a self link (link.split("/")[-1]). -/
def trim_self_link (link : String) : String :=
  String.mk ((link.data.reverse.takeWhile (fun c => c ≠ '/')).reverse)

/-- The grouping key of failed inserts: "+".join(err code for err in errors)
(resume.py line 430). -/
def joined_code (op : InsOp) : String :=
  strJoin "+" ((op.error.getD []).map (fun e => e.code))

/-- The representative error message (resume.py lines 440-443). -/
def insert_msg (op : InsOp) : String :=
  strJoin "; "
    ((op.error.getD []).map (fun e => e.code ++ ": " ++ (e.message.getD "no message")))

/-- failed_nodes dict of one failure bucket (resume.py line 433). -/
def failed_nodes_dict (ops : List InsOp) : List (String × InsOp) :=
  dictOf (ops.map (fun op => (trim_self_link op.targetLink, op)))

/-- The (nodes, reason) arguments of every down_nodes_notify_jobs call issued
while reconciling one completed bulk operation's per-instance inserts
(resume.py lines 424-448).  Buckets whose concatenated code is exactly
RESOURCE_ALREADY_EXISTS are logged but produce no call (line 444). -/
def reconcile_down_calls (ops : List InsOp) : List (List String × String) :=
  let sep := separate (fun op => op.error.isSome) ops
  let failed_inserts := sep.2
  ((groupby_unsorted failed_inserts joined_code).filter
      (fun cb => cb.1 ≠ "RESOURCE_ALREADY_EXISTS")).map
    (fun cb =>
      let failed_nodes := failed_nodes_dict cb.2
      let rep := failed_nodes.headD ("", { targetLink := "", error := none })
      (failed_nodes.map (fun kv => kv.1), "GCP Error: " ++ insert_msg rep.2))

/-! ### Generic helper lemmas -/

theorem headD_mem {α : Type} (l : List α) (b : α) (h : l ≠ []) : l.headD b ∈ l := by
  cases l with
  | nil => exact absurd rfl h
  | cons a l' => exact List.mem_cons_self _ _

theorem mem_pysort (l : List Node) (x : Node) : x ∈ pysort l ↔ x ∈ l :=
  (List.perm_insertionSort _ l).mem_iff

theorem pysort_of_sorted (l : List Node) (h : l.Sorted (· ≤ ·)) : pysort l = l :=
  List.Sorted.insertionSort_eq h

theorem length_pysort (l : List Node) : (pysort l).length = l.length :=
  (List.perm_insertionSort _ l).length_eq

theorem firstOccurAux_of_nodup {κ : Type} [DecidableEq κ] (seen l : List κ)
    (h : l.Nodup) (hdisj : ∀ x ∈ l, x ∉ seen) : firstOccurAux seen l = l := by
  induction l generalizing seen with
  | nil => rfl
  | cons k ks ih =>
    have hunfold : firstOccurAux seen (k :: ks) =
        if k ∈ seen then firstOccurAux seen ks else k :: firstOccurAux (k :: seen) ks := rfl
    rw [hunfold, if_neg (hdisj k (List.mem_cons_self _ _))]
    rw [ih (k :: seen) (List.nodup_cons.mp h).2]
    intro x hx
    intro hc
    rcases List.mem_cons.mp hc with rfl | hc
    · exact (List.nodup_cons.mp h).1 hx
    · exact hdisj x (List.mem_cons_of_mem _ hx) hc

theorem firstOccur_of_nodup {κ : Type} [DecidableEq κ] (l : List κ) (h : l.Nodup) :
    firstOccur l = l :=
  firstOccurAux_of_nodup [] l h (by simp)

theorem sortDedup_of_sorted_nodup (l : List Node) (hs : l.Sorted (· ≤ ·))
    (hn : l.Nodup) : sortDedup l = l := by
  rw [sortDedup, firstOccur_of_nodup l hn]
  exact pysort_of_sorted l hs

/-- Entries of a fold of keyed inserts come from the seed or the inserted pairs. -/
theorem mem_foldl_dinsert {α κ β : Type} [DecidableEq κ] (key : α → κ) (val : α → β)
    (l : List α) (init : List (κ × β)) (x : κ × β)
    (h : x ∈ l.foldl (fun acc a => dinsert (key a) (val a) acc) init) :
    x ∈ init ∨ ∃ a ∈ l, x = (key a, val a) := by
  induction l generalizing init with
  | nil => exact Or.inl (by simpa using h)
  | cons a l' ih =>
    simp only [List.foldl_cons] at h
    rcases ih (dinsert (key a) (val a) init) h with h' | h'
    · rcases mem_dinsert (key a) (val a) init x h' with h'' | h''
      · exact Or.inr ⟨a, List.mem_cons_self _ _, h''⟩
      · exact Or.inl h''
    · rcases h' with ⟨b, hb, hx⟩
      exact Or.inr ⟨b, List.mem_cons_of_mem _ hb, hx⟩

theorem dkeys_dupdate_nodup {κ β : Type} [DecidableEq κ] (d u : List (κ × β))
    (h : (dkeys d).Nodup) : (dkeys (dupdate d u)).Nodup := by
  induction u generalizing d with
  | nil => simpa [dupdate] using h
  | cons kv rest ih =>
    simp only [dupdate, List.foldl_cons]
    exact ih (dinsert kv.1 kv.2 d) (dkeys_dinsert_nodup kv.1 kv.2 d h)

theorem dkeys_dictOf_nodup {κ β : Type} [DecidableEq κ] (u : List (κ × β)) :
    (dkeys (dictOf u)).Nodup :=
  dkeys_dupdate_nodup [] u (by simp [dkeys])

/-- In a dict with duplicate-free keys, a key determines its value. -/
theorem dict_key_unique {κ β : Type} (d : List (κ × β)) (hn : (dkeys d).Nodup)
    (k : κ) (v₁ v₂ : β) (h₁ : (k, v₁) ∈ d) (h₂ : (k, v₂) ∈ d) : v₁ = v₂ := by
  induction d with
  | nil => simp at h₁
  | cons kv rest ih =>
    simp only [dkeys, List.map_cons, List.nodup_cons] at hn
    rcases List.mem_cons.mp h₁ with rfl | h₁
    · rcases List.mem_cons.mp h₂ with h₂ | h₂
      · exact (congrArg Prod.snd h₂.symm : _)
      · exfalso
        exact hn.1 (List.mem_map.mpr ⟨(k, v₂), h₂, rfl⟩)
    · rcases List.mem_cons.mp h₂ with h₂ | h₂
      · exfalso
        apply hn.1
        have hkk : kv.1 = k := by rw [← h₂]
        rw [hkk]
        exact List.mem_map.mpr ⟨(k, v₁), h₁, rfl⟩
      · exact ih hn.2 h₁ h₂

theorem dinsert_ne_nil {κ β : Type} [DecidableEq κ] (k : κ) (v : β) (d : List (κ × β)) :
    dinsert k v d ≠ [] := by
  cases d with
  | nil => simp [dinsert]
  | cons kv rest =>
    rcases kv with ⟨k', v'⟩
    have hunfold : dinsert k v ((k', v') :: rest) =
        if k' = k then (k, v) :: rest else (k', v') :: dinsert k v rest := rfl
    rw [hunfold]
    by_cases hk : k' = k
    · simp [if_pos hk]
    · simp [if_neg hk]

theorem dupdate_ne_nil {κ β : Type} [DecidableEq κ] (d u : List (κ × β))
    (h : d ≠ [] ∨ u ≠ []) : dupdate d u ≠ [] := by
  induction u generalizing d with
  | nil =>
    rcases h with h | h
    · simpa [dupdate] using h
    · exact absurd rfl h
  | cons kv rest ih =>
    simp only [dupdate, List.foldl_cons]
    exact ih (dinsert kv.1 kv.2 d) (Or.inl (dinsert_ne_nil kv.1 kv.2 d))

theorem mem_dkeys_dinsert_self {κ β : Type} [DecidableEq κ] (k : κ) (v : β)
    (d : List (κ × β)) : k ∈ dkeys (dinsert k v d) := by
  induction d with
  | nil => simp [dinsert, dkeys]
  | cons kv rest ih =>
    rcases kv with ⟨k', v'⟩
    have hunfold : dinsert k v ((k', v') :: rest) =
        if k' = k then (k, v) :: rest else (k', v') :: dinsert k v rest := rfl
    rw [hunfold]
    by_cases hk : k' = k
    · simp [if_pos hk, dkeys]
    · simp only [if_neg hk, dkeys, List.map_cons]
      exact List.mem_cons_of_mem _ ih

theorem mem_dkeys_dinsert_mono {κ β : Type} [DecidableEq κ] (k : κ) (v : β)
    (d : List (κ × β)) (a : κ) (h : a ∈ dkeys d) : a ∈ dkeys (dinsert k v d) := by
  induction d with
  | nil => simp [dkeys] at h
  | cons kv rest ih =>
    rcases kv with ⟨k', v'⟩
    have hunfold : dinsert k v ((k', v') :: rest) =
        if k' = k then (k, v) :: rest else (k', v') :: dinsert k v rest := rfl
    rw [hunfold]
    simp only [dkeys, List.map_cons, List.mem_cons] at h
    by_cases hk : k' = k
    · rw [if_pos hk]
      simp only [dkeys, List.map_cons, List.mem_cons]
      rcases h with h | h
      · exact Or.inl (h.trans hk)
      · exact Or.inr h
    · rw [if_neg hk]
      simp only [dkeys, List.map_cons, List.mem_cons]
      rcases h with h | h
      · exact Or.inl h
      · exact Or.inr (ih h)

theorem mem_dkeys_dupdate_mono {κ β : Type} [DecidableEq κ] (d u : List (κ × β))
    (a : κ) (h : a ∈ dkeys d) : a ∈ dkeys (dupdate d u) := by
  induction u generalizing d with
  | nil => simpa [dupdate] using h
  | cons kv rest ih =>
    simp only [dupdate, List.foldl_cons]
    exact ih (dinsert kv.1 kv.2 d) (mem_dkeys_dinsert_mono kv.1 kv.2 d a h)

theorem mem_dkeys_dupdate {κ β : Type} [DecidableEq κ] (d u : List (κ × β))
    (x : κ × β) (hx : x ∈ u) : x.1 ∈ dkeys (dupdate d u) := by
  induction u generalizing d with
  | nil => simp at hx
  | cons kv rest ih =>
    simp only [dupdate, List.foldl_cons]
    rcases List.mem_cons.mp hx with rfl | hx
    · exact mem_dkeys_dupdate_mono (dinsert x.1 x.2 d) rest x.1
        (mem_dkeys_dinsert_self x.1 x.2 d)
    · exact ih (dinsert kv.1 kv.2 d) hx

theorem mem_dkeys_dictOf {κ β : Type} [DecidableEq κ] (u : List (κ × β))
    (x : κ × β) (hx : x ∈ u) : x.1 ∈ dkeys (dictOf u) :=
  mem_dkeys_dupdate [] u x hx

/-! ### Colon-separated identifier algebra -/

theorem colon_split (a b a' b' : List Char) (ha : ':' ∉ a) (ha' : ':' ∉ a')
    (h : a ++ ':' :: b = a' ++ ':' :: b') : a = a' ∧ b = b' := by
  induction a generalizing a' with
  | nil =>
    cases a' with
    | nil => simpa using h
    | cons c a'' =>
      exfalso
      simp only [List.nil_append, List.cons_append, List.cons.injEq] at h
      exact ha' (h.1 ▸ List.mem_cons_self _ _)
  | cons c a'' ih =>
    cases a' with
    | nil =>
      exfalso
      simp only [List.nil_append, List.cons_append, List.cons.injEq] at h
      exact ha (h.1.symm ▸ List.mem_cons_self _ _)
    | cons c' a''' =>
      simp only [List.cons_append, List.cons.injEq] at h
      have := ih a''' (fun hc => ha (List.mem_cons_of_mem _ hc))
        (fun hc => ha' (List.mem_cons_of_mem _ hc)) h.2
      exact ⟨by rw [h.1, this.1], this.2⟩

/-- Join character-level fields with a colon. -/
def joinColon : List (List Char) → List Char
  | [] => []
  | [x] => x
  | x :: y :: xs => x ++ ':' :: joinColon (y :: xs)

theorem count_joinColon (xs : List (List Char)) (hx : ∀ x ∈ xs, ':' ∉ x)
    (hne : xs ≠ []) : (joinColon xs).count ':' = xs.length - 1 := by
  induction xs with
  | nil => exact absurd rfl hne
  | cons x rest ih =>
    cases rest with
    | nil =>
      simp only [joinColon, List.length_cons, List.length_nil]
      exact List.count_eq_zero.mpr (hx x (List.mem_cons_self _ _))
    | cons y rest' =>
      have hx0 : (x.count ':') = 0 := List.count_eq_zero.mpr (hx x (List.mem_cons_self _ _))
      have ihv := ih (fun z hz => hx z (List.mem_cons_of_mem _ hz)) (by simp)
      have hstep : (joinColon (x :: y :: rest')).count ':' =
          x.count ':' + ((joinColon (y :: rest')).count ':' + 1) := by
        simp [joinColon, List.count_append, List.count_cons]
      rw [hstep, hx0, ihv]
      simp only [List.length_cons]
      omega

theorem joinColon_inj (xs ys : List (List Char)) (hx : ∀ x ∈ xs, ':' ∉ x)
    (hy : ∀ y ∈ ys, ':' ∉ y) (hxne : xs ≠ []) (hyne : ys ≠ [])
    (h : joinColon xs = joinColon ys) : xs = ys := by
  induction xs generalizing ys with
  | nil => exact absurd rfl hxne
  | cons x rest ih =>
    cases ys with
    | nil => exact absurd rfl hyne
    | cons y rest' =>
      have hlen : rest.length = rest'.length := by
        have hc : (joinColon (x :: rest)).count ':' = (joinColon (y :: rest')).count ':' := by
          rw [h]
        rw [count_joinColon (x :: rest) hx (by simp),
          count_joinColon (y :: rest') hy (by simp)] at hc
        simpa using hc
      cases rest with
      | nil =>
        cases rest' with
        | nil => simpa [joinColon] using h
        | cons z rest'' => simp at hlen
      | cons x' rest'' =>
        cases rest' with
        | nil => simp at hlen
        | cons y' rest''' =>
          simp only [joinColon] at h
          have hsp := colon_split x (joinColon (x' :: rest'')) y (joinColon (y' :: rest'''))
            (hx x (List.mem_cons_self _ _)) (hy y (List.mem_cons_self _ _)) h
          have htail := ih (y' :: rest''') (fun z hz => hx z (List.mem_cons_of_mem _ hz))
            (fun z hz => hy z (List.mem_cons_of_mem _ hz)) (by simp) (by simp) hsp.2
          rw [hsp.1, htail]

/-- The colon-separated fields of a group identifier. -/
def name_fields (c : BulkChunk) : List (List Char) :=
  match c.placement_group, c.job_id with
  | some pg, _ =>
    [c.pfx.data, 'j' :: 'o' :: 'b' :: (job_str c.job_id).data, pg.data,
      (natStr c.chunk_idx).data]
  | none, some j =>
    [c.pfx.data, 'j' :: 'o' :: 'b' :: (natStr j).data, (natStr c.chunk_idx).data]
  | none, none => [c.pfx.data, (natStr c.chunk_idx).data]

theorem group_name_data (c : BulkChunk) : (group_name c).data = joinColon (name_fields c) := by
  rcases hpg : c.placement_group with _ | pg
  · rcases hj : c.job_id with _ | j
    · simp [group_name, name_fields, hpg, hj, joinColon, String.data_append]
    · simp [group_name, name_fields, hpg, hj, joinColon, String.data_append]
  · rcases hj : c.job_id with _ | j
    · simp [group_name, name_fields, hpg, hj, joinColon, String.data_append]
    · simp [group_name, name_fields, hpg, hj, joinColon, String.data_append]

theorem job_str_no_colon (o : Option Nat) : ':' ∉ (job_str o).data := by
  cases o with
  | none =>
    intro h
    simp [job_str] at h
  | some j => exact natStr_no_colon j

theorem job_str_inj (a b : Option Nat) (h : job_str a = job_str b) : a = b := by
  cases a with
  | none =>
    cases b with
    | none => rfl
    | some j => exact absurd h.symm (natStr_ne_none_str j)
  | some i =>
    cases b with
    | none => exact absurd h (natStr_ne_none_str i)
    | some j => exact congrArg some (natStr_injective i j h)

theorem pg_name_no_colon (lkp : Lookup) (ns : String) (job_id i : Nat)
    (hclu : ':' ∉ lkp.cluster_name.data) (hns : ':' ∉ ns.data) :
    ':' ∉ (pg_name lkp ns job_id i).data := by
  intro h
  simp only [pg_name, String.data_append, List.mem_append] at h
  rcases h with ((((((h | h) | h) | h) | h) | h) | h) <;>
    first
      | exact hclu h
      | exact hns h
      | exact natStr_no_colon job_id h
      | exact natStr_no_colon i h
      | exact absurd h (by decide)

/-! ### Provenance of grouped chunks -/

theorem mem_enum_getElem {α : Type} (l : List α) (i : Nat) (x : α)
    (h : (i, x) ∈ l.enum) : l[i]? = some x :=
  List.mk_mem_enum_iff_getElem?.mp h

theorem mem_enum_snd_mem {α : Type} (l : List α) (i : Nat) (x : α)
    (h : (i, x) ∈ l.enum) : x ∈ l :=
  List.getElem?_mem (mem_enum_getElem l i x h)

theorem mem_enum_unique {α : Type} (l : List α) (i : Nat) (x₁ x₂ : α)
    (h₁ : (i, x₁) ∈ l.enum) (h₂ : (i, x₂) ∈ l.enum) : x₁ = x₂ := by
  have e₁ := mem_enum_getElem l i x₁ h₁
  have e₂ := mem_enum_getElem l i x₂ h₂
  rw [e₁] at e₂
  exact Option.some.inj e₂

theorem cnpg_entry_spec (lkp : Lookup) (nl : List Node) (j : Nat)
    (kv : Option String × List Node) (h : kv ∈ create_nodeset_placement_groups lkp nl j) :
    (∀ x ∈ kv.2, x ∈ nl) ∧
    (∀ g, kv.1 = some g →
      kv.2.length ≤ PLACEMENT_MAX_CNT ∧ kv.2 ≠ [] ∧
      ∃ i, g = pg_name lkp (lkp.node_nodeset (nl.headD 0)).nodeset_name j i) := by
  unfold create_nodeset_placement_groups at h
  by_cases h1 : nl.length < 2
  · rw [if_pos h1] at h
    rcases List.mem_singleton.mp h with rfl
    exact ⟨fun x hx => hx, fun g hg => by simp at hg⟩
  · rw [if_neg h1] at h
    by_cases h2 : (!((lkp.node_nodeset (nl.headD 0)).enable_placement &&
        valid_placement_nodes lkp nl)) = true
    · rw [if_pos h2] at h
      rcases List.mem_singleton.mp h with rfl
      exact ⟨fun x hx => hx, fun g hg => by simp at hg⟩
    · rw [if_neg h2] at h
      have h' := mem_dictOf _ _ h
      rcases List.mem_map.mp h' with ⟨ic, hic, rfl⟩
      have hmem := mem_enum_snd_mem _ ic.1 ic.2 (by simpa using hic)
      rcases mem_chunked nl PLACEMENT_MAX_CNT ic.2 hmem with ⟨hne, hlen, -, hsub⟩
      refine ⟨hsub, fun g hg => ?_⟩
      refine ⟨hlen, hne, ic.1, ?_⟩
      simpa using hg.symm

theorem cnpg_value_sub (lkp : Lookup) (nl : List Node) (j : Nat)
    (kv : Option String × List Node) (h : kv ∈ create_nodeset_placement_groups lkp nl j)
    (x : Node) (hx : x ∈ kv.2) : x ∈ nl :=
  (cnpg_entry_spec lkp nl j kv h).1 x hx

/-- Property transport through the dupdate fold of create_placement_groups. -/
theorem foldl_dupdate_spec {κ β : Type} [DecidableEq κ] {α : Type}
    (P : κ × β → Prop) (step : α → List (κ × β)) (bs : List α)
    (hstep : ∀ b ∈ bs, ∀ kv ∈ step b, P kv) (acc : List (κ × β))
    (hacc : ∀ kv ∈ acc, P kv) :
    ∀ kv ∈ bs.foldl (fun d b => dupdate d (step b)) acc, P kv := by
  induction bs generalizing acc with
  | nil => simpa using hacc
  | cons b rest ih =>
    intro kv hkv
    simp only [List.foldl_cons] at hkv
    refine ih (fun b' hb' => hstep b' (List.mem_cons_of_mem _ hb')) (dupdate acc (step b))
      (fun kv' hkv' => ?_) kv hkv
    rcases mem_dupdate acc (step b) kv' hkv' with h' | h'
    · exact hacc kv' h'
    · exact hstep b (List.mem_cons_self _ _) kv' h'

theorem cpg_entry_spec (lkp : Lookup) (nl : List Node) (j : Nat)
    (kv : Option String × List Node) (h : kv ∈ create_placement_groups lkp nl j) :
    (∀ x ∈ kv.2, x ∈ nl) ∧
    (∀ g, kv.1 = some g →
      kv.2.length ≤ PLACEMENT_MAX_CNT ∧ kv.2 ≠ [] ∧
      ∃ s i, g = pg_name lkp (lkp.cfg_nodeset s).nodeset_name j i) := by
  unfold create_placement_groups at h
  refine foldl_dupdate_spec
    (fun kv => (∀ x ∈ kv.2, x ∈ nl) ∧
      (∀ g, kv.1 = some g →
        kv.2.length ≤ PLACEMENT_MAX_CNT ∧ kv.2 ≠ [] ∧
        ∃ s i, g = pg_name lkp (lkp.cfg_nodeset s).nodeset_name j i))
    (fun b => create_nodeset_placement_groups lkp b.2 j) (nodeset_map lkp nl)
    ?_ [] (by simp) kv h
  intro b hb kv' hkv'
  rcases mem_groupby_unsorted nl _ b.1 b.2 (by simpa [nodeset_map] using hb) with ⟨hfil, -⟩
  have hsub : ∀ x ∈ b.2, x ∈ nl := by
    intro x hx
    rw [hfil] at hx
    exact (List.mem_filter.mp hx).1
  rcases cnpg_entry_spec lkp b.2 j kv' hkv' with ⟨hsub', hsome⟩
  refine ⟨fun x hx => hsub x (hsub' x hx), fun g hg => ?_⟩
  rcases hsome g hg with ⟨hlen, hne, i, hgname⟩
  exact ⟨hlen, hne, lkp.node_pfx (b.2.headD 0), i, by
    simpa [Lookup.node_nodeset] using hgname⟩

theorem job_group_of_job_id (lkp : Lookup) (nset : List Node) (job : ResumeJobData Node) :
    (job_group_of lkp nset job).job_id = some job.job_id := by
  unfold job_group_of
  by_cases h : lkp.partition_is_tpu job.partition = true
  · simp [h]
  · simp [h]

theorem job_group_of_partition (lkp : Lookup) (nset : List Node) (job : ResumeJobData Node) :
    (job_group_of lkp nset job).partition = some job.partition := by
  unfold job_group_of
  by_cases h : lkp.partition_is_tpu job.partition = true
  · simp [h]
  · simp [h]

theorem jg_cases (nset : List Node) (rd : ResumeData Node) (lkp : Lookup) (jg : JobGroup)
    (h : jg ∈ job_groups_values nset rd lkp) :
    (∃ job ∈ rd.jobs, jg = job_group_of lkp nset job) ∨
    jg = normal_none_group nset rd lkp ∨ jg = tpu_none_group nset rd lkp := by
  rcases List.mem_append.mp h with h' | h'
  · rcases List.mem_map.mp h' with ⟨kv, hkv, rfl⟩
    rcases mem_foldl_dinsert (fun job : ResumeJobData Node => job.job_id)
      (fun job => job_group_of lkp nset job) rd.jobs [] kv hkv with h'' | h''
    · simp at h''
    · rcases h'' with ⟨job, hjob, rfl⟩
      exact Or.inl ⟨job, hjob, rfl⟩
  · rcases List.mem_cons.mp h' with h'' | h''
    · exact Or.inr (Or.inl h'')
    · exact Or.inr (Or.inr (List.mem_singleton.mp h''))

theorem mem_jobless (nset : List Node) (rd : ResumeData Node) (lkp : Lookup)
    (x : Node) (hx : x ∈ jobless_nodes nset rd lkp) :
    x ∈ nset ∧ lkp.node_is_tpu x = false := by
  unfold jobless_nodes separate at hx
  have hx' := List.mem_filter.mp hx
  refine ⟨(List.mem_filter.mp hx'.1).1, ?_⟩
  simpa using hx'.2

theorem mem_jobless_tpu (nset : List Node) (rd : ResumeData Node) (lkp : Lookup)
    (x : Node) (hx : x ∈ jobless_nodes_tpu nset rd lkp) :
    x ∈ nset ∧ lkp.node_is_tpu x = true := by
  unfold jobless_nodes_tpu separate at hx
  have hx' := List.mem_filter.mp hx
  exact ⟨(List.mem_filter.mp hx'.1).1, hx'.2⟩

theorem jg_pgs_spec (nset : List Node) (rd : ResumeData Node) (lkp : Lookup)
    (jg : JobGroup) (hjg : jg ∈ job_groups_values nset rd lkp)
    (kv : Option String × List Node) (hkv : kv ∈ jg.placement_groups) :
    (∀ x ∈ kv.2, x ∈ nset) ∧
    (∀ g, kv.1 = some g →
      kv.2.length ≤ PLACEMENT_MAX_CNT ∧
      ∃ s jid i, g = pg_name lkp (lkp.cfg_nodeset s).nodeset_name jid i) := by
  rcases jg_cases nset rd lkp jg hjg with ⟨job, hjob, rfl⟩ | rfl | rfl
  · unfold job_group_of at hkv
    by_cases htpu : lkp.partition_is_tpu job.partition = true
    · rw [if_pos htpu] at hkv
      simp only at hkv
      rcases List.mem_singleton.mp hkv with rfl
      constructor
      · intro x hx
        have := (mem_pysort _ x).mp hx
        exact (List.mem_filter.mp this).1
      · intro g hg
        simp at hg
    · rw [if_neg htpu] at hkv
      simp only at hkv
      rcases List.mem_map.mp hkv with ⟨kv0, hkv0, rfl⟩
      rcases cpg_entry_spec lkp job.nodes_alloc job.job_id kv0 hkv0 with ⟨-, hsome⟩
      constructor
      · intro x hx
        have hx' := (mem_sortDedup _ x).mp hx
        have := (List.mem_filter.mp hx').2
        have hx'' : x ∈ nset.filter (fun n => n ∈ job.nodes_alloc) := by
          simpa using this
        exact (List.mem_filter.mp hx'').1
      · intro g hg
        simp only at hg
        rcases hsome g hg with ⟨hlen, -, s, i, hgname⟩
        refine ⟨?_, s, job.job_id, i, hgname⟩
        calc (sortDedup (kv0.2.filter (fun n =>
                n ∈ nset.filter (fun n' => n' ∈ job.nodes_alloc)))).length
            ≤ (kv0.2.filter (fun n =>
                n ∈ nset.filter (fun n' => n' ∈ job.nodes_alloc))).length :=
              length_sortDedup _
          _ ≤ kv0.2.length := List.length_filter_le _ _
          _ ≤ PLACEMENT_MAX_CNT := hlen
  · unfold normal_none_group at hkv
    simp only at hkv
    rcases cpg_entry_spec lkp (pysort (jobless_nodes nset rd lkp)) 0 kv hkv with ⟨hsub, hsome⟩
    constructor
    · intro x hx
      have := (mem_pysort _ x).mp (hsub x hx)
      exact (mem_jobless nset rd lkp x this).1
    · intro g hg
      rcases hsome g hg with ⟨hlen, -, s, i, hgname⟩
      exact ⟨hlen, s, 0, i, hgname⟩
  · unfold tpu_none_group at hkv
    simp only at hkv
    rcases List.mem_singleton.mp hkv with rfl
    constructor
    · intro x hx
      have := (mem_pysort _ x).mp hx
      exact (mem_jobless_tpu nset rd lkp x this).1
    · intro g hg
      simp at hg

theorem chunk_nodes_spec (lkp : Lookup) (bucket : List Node) (ch : List Node)
    (h : ch ∈ chunk_nodes lkp bucket) :
    ch ≠ [] ∧ ch.length ≤ bucket.length ∧ (∀ x ∈ ch, x ∈ bucket) ∧
    (lkp.node_is_tpu (bucket.headD 0) = true →
      ch.length ≤ (lkp.node_nodeset (bucket.headD 0)).vmcount) ∧
    (lkp.node_is_tpu (bucket.headD 0) = false → ch.length ≤ BULK_INSERT_LIMIT) := by
  unfold chunk_nodes at h
  simp only at h
  by_cases hc : (!bucket.isEmpty && lkp.node_is_tpu (bucket.headD 0)) = true
  · rw [if_pos hc] at h
    rcases mem_chunked _ _ ch h with ⟨hne, hlen, hblen, hsub⟩
    have htpu : lkp.node_is_tpu (bucket.headD 0) = true := by
      rcases Bool.and_eq_true_iff.mp hc with ⟨-, h2⟩
      exact h2
    exact ⟨hne, hblen, hsub, fun _ => hlen, fun hfalse => by rw [htpu] at hfalse; cases hfalse⟩
  · rw [if_neg hc] at h
    rcases mem_chunked _ _ ch h with ⟨hne, hlen, hblen, hsub⟩
    refine ⟨hne, hblen, hsub, fun htrue => ?_, fun _ => hlen⟩
    exfalso
    by_cases hb : bucket.isEmpty = true
    · have : bucket = [] := List.isEmpty_iff.mp hb
      subst this
      simp [chunked, chunkedF] at h
    · apply hc
      rw [Bool.and_eq_true_iff]
      exact ⟨by simpa using hb, htrue⟩

theorem mem_grouped_nodes_core (nset : List Node) (rd : ResumeData Node) (lkp : Lookup)
    (c : BulkChunk) :
    c ∈ grouped_nodes_core nset rd lkp ↔
    ∃ jg ∈ job_groups_values nset rd lkp, ∃ pgkv ∈ jg.placement_groups,
      ∃ prkv ∈ groupby_unsorted pgkv.2 (fun n => lkp.node_pfx n),
        ∃ ic ∈ (chunk_nodes lkp prkv.2).enum,
          c = { nodes := ic.2, pfx := prkv.1, chunk_idx := ic.1, job_id := jg.job_id,
                partition := jg.partition, placement_group := pgkv.1 } := by
  unfold grouped_nodes_core
  constructor
  · intro h
    rcases List.mem_flatMap.mp h with ⟨jg, hjg, h⟩
    rcases List.mem_flatMap.mp h with ⟨pgkv, hpgkv, h⟩
    rcases List.mem_flatMap.mp h with ⟨prkv, hprkv, h⟩
    rcases List.mem_map.mp h with ⟨ic, hic, rfl⟩
    exact ⟨jg, hjg, pgkv, hpgkv, prkv, hprkv, ic, hic, rfl⟩
  · rintro ⟨jg, hjg, pgkv, hpgkv, prkv, hprkv, ic, hic, rfl⟩
    refine List.mem_flatMap.mpr ⟨jg, hjg, ?_⟩
    refine List.mem_flatMap.mpr ⟨pgkv, hpgkv, ?_⟩
    refine List.mem_flatMap.mpr ⟨prkv, hprkv, ?_⟩
    exact List.mem_map.mpr ⟨ic, hic, rfl⟩

theorem grouped_chunk_spec (nset : List Node) (rd : ResumeData Node) (lkp : Lookup)
    (c : BulkChunk) (h : c ∈ grouped_nodes_core nset rd lkp) :
    c.nodes ≠ [] ∧
    (∀ x ∈ c.nodes, lkp.node_pfx x = c.pfx) ∧
    (∀ x ∈ c.nodes, x ∈ nset) ∧
    (c.placement_group.isSome = true → c.nodes.length ≤ PLACEMENT_MAX_CNT) ∧
    (lkp.node_is_tpu (c.nodes.headD 0) = false → c.nodes.length ≤ BULK_INSERT_LIMIT) ∧
    (lkp.node_is_tpu (c.nodes.headD 0) = true →
      c.nodes.length ≤ (lkp.node_nodeset (c.nodes.headD 0)).vmcount) := by
  rcases (mem_grouped_nodes_core nset rd lkp c).mp h with
    ⟨jg, hjg, pgkv, hpgkv, prkv, hprkv, ic, hic, rfl⟩
  have hchm : ic.2 ∈ chunk_nodes lkp prkv.2 := mem_enum_snd_mem _ ic.1 ic.2 (by simpa using hic)
  rcases chunk_nodes_spec lkp prkv.2 ic.2 hchm with ⟨hne, hblen, hsub, htpu, hconv⟩
  have hpfx : ∀ x ∈ ic.2, lkp.node_pfx x = prkv.1 := fun x hx =>
    groupby_unsorted_bucket_key pgkv.2 _ prkv.1 prkv.2 hprkv x (hsub x hx)
  have hnsetmem : ∀ x ∈ ic.2, x ∈ nset := fun x hx =>
    (jg_pgs_spec nset rd lkp jg hjg pgkv hpgkv).1 x
      (groupby_unsorted_bucket_sub pgkv.2 _ prkv.1 prkv.2 hprkv x (hsub x hx))
  have hbne : prkv.2 ≠ [] := groupby_unsorted_bucket_ne_nil pgkv.2 _ prkv.1 prkv.2 hprkv
  have hhead_pfx : lkp.node_pfx (ic.2.headD 0) = prkv.1 :=
    hpfx (ic.2.headD 0) (headD_mem ic.2 0 hne)
  have hbhead_pfx : lkp.node_pfx (prkv.2.headD 0) = prkv.1 :=
    groupby_unsorted_bucket_key pgkv.2 _ prkv.1 prkv.2 hprkv (prkv.2.headD 0)
      (headD_mem prkv.2 0 hbne)
  have hsame_ns : lkp.node_nodeset (ic.2.headD 0) = lkp.node_nodeset (prkv.2.headD 0) := by
    unfold Lookup.node_nodeset
    rw [hhead_pfx, hbhead_pfx]
  have hsame_tpu : lkp.node_is_tpu (ic.2.headD 0) = lkp.node_is_tpu (prkv.2.headD 0) := by
    unfold Lookup.node_is_tpu
    rw [hsame_ns]
  refine ⟨hne, hpfx, hnsetmem, ?_, ?_, ?_⟩
  · intro hsome
    rcases Option.isSome_iff_exists.mp hsome with ⟨g, hg⟩
    have hlen := ((jg_pgs_spec nset rd lkp jg hjg pgkv hpgkv).2 g hg).1
    calc ic.2.length ≤ prkv.2.length := hblen
      _ ≤ pgkv.2.length := groupby_unsorted_bucket_len pgkv.2 _ prkv.1 prkv.2 hprkv
      _ ≤ PLACEMENT_MAX_CNT := hlen
  · intro hfalse
    exact hconv (by rw [← hsame_tpu]; exact hfalse)
  · intro htrue
    have := htpu (by rw [← hsame_tpu]; exact htrue)
    unfold Lookup.node_nodeset at hsame_ns ⊢
    rw [show lkp.cfg_nodeset (lkp.node_pfx (ic.2.headD 0)) =
        lkp.cfg_nodeset (lkp.node_pfx (prkv.2.headD 0)) from hsame_ns]
    exact this

theorem mem_group_nodes_bulk (nodes : List Node) (rd : Option (ResumeData Node))
    (lkp : Lookup) (kv : String × BulkChunk) (h : kv ∈ group_nodes_bulk nodes rd lkp) :
    kv.1 = group_name kv.2 ∧ kv.2 ∈ grouped_nodes_of nodes rd lkp := by
  have h' := mem_dictOf _ _ h
  rcases List.mem_map.mp h' with ⟨c, hc, rfl⟩
  exact ⟨rfl, hc⟩

/-! ### Concrete configurations for witnesses and counterexamples -/

/-- A trivial conventional configuration (one prefix, placement disabled). -/
def lkp0 : Lookup :=
  { cluster_name := "c",
    node_pfx := fun _ => "p",
    cfg_nodeset := fun _ =>
      { nodeset_name := "n", is_tpu := false, vmcount := 1, enable_placement := false },
    partition_is_tpu := fun _ => false,
    machine_type := fun _ => "n2-standard-2",
    node_template := fun _ => "tmpl" }

/-- Two single-node nodesets (prefixes a and b), placement disabled. -/
def lkpC1 : Lookup :=
  { cluster_name := "c",
    node_pfx := fun n => if n = 0 then "a" else "b",
    cfg_nodeset := fun s =>
      { nodeset_name := s, is_tpu := false, vmcount := 1, enable_placement := false },
    partition_is_tpu := fun _ => false,
    machine_type := fun _ => "n2-standard-2",
    node_template := fun _ => "tmpl" }

/-- One conventional nodeset with placement enabled. -/
def lkpC3 : Lookup :=
  { cluster_name := "c",
    node_pfx := fun _ => "p",
    cfg_nodeset := fun _ =>
      { nodeset_name := "n", is_tpu := false, vmcount := 1, enable_placement := true },
    partition_is_tpu := fun _ => false,
    machine_type := fun _ => "n2-standard-4",
    node_template := fun _ => "tmpl" }

/-- One TPU nodeset with accelerator VM-group size 2. -/
def lkpTPU : Lookup :=
  { cluster_name := "c",
    node_pfx := fun _ => "t",
    cfg_nodeset := fun _ =>
      { nodeset_name := "t", is_tpu := true, vmcount := 2, enable_placement := false },
    partition_is_tpu := fun _ => true,
    machine_type := fun _ => "tpu-v4",
    node_template := fun _ => "tmpl" }

/-- One TPU nodeset whose accelerator VM-group size exceeds the bulk-insert
limit. -/
def lkpBig : Lookup :=
  { cluster_name := "c",
    node_pfx := fun _ => "t",
    cfg_nodeset := fun _ =>
      { nodeset_name := "t", is_tpu := true, vmcount := 5001, enable_placement := false },
    partition_is_tpu := fun _ => true,
    machine_type := fun _ => "tpu-v4",
    node_template := fun _ => "tmpl" }

/-- The trailing remainder chunk of 3 jobless TPU nodes with VM-group size 2. -/
def chunkT1 : BulkChunk :=
  { nodes := [2], pfx := "t", chunk_idx := 1, job_id := none,
    partition := none, placement_group := none }

/-- The full first chunk of the same invocation. -/
def chunkT0 : BulkChunk :=
  { nodes := [0, 1], pfx := "t", chunk_idx := 0, job_id := none,
    partition := none, placement_group := none }

/-! ### Claim C2 -/

/-- C2 counterexample: in an invocation with 3 jobless TPU nodes and
accelerator VM-group size 2, group_nodes_bulk produces a chunk (the trailing
remainder) whose node count is 1, not the VM-group size 2 — refuting the
claim that every accelerator chunk's node count equals exactly the nodeset's
accelerator VM-group size. -/
theorem c2_exact_vmcount_counterexample :
    (("t:1", chunkT1) ∈ group_nodes_bulk [0, 1, 2] none lkpTPU) ∧
    lkpTPU.node_is_tpu (chunkT1.nodes.headD 0) = true ∧
    (lkpTPU.node_nodeset (chunkT1.nodes.headD 0)).vmcount = 2 ∧
    ¬ (chunkT1.nodes.length = (lkpTPU.node_nodeset (chunkT1.nodes.headD 0)).vmcount) := by
  decide

/-- C2 (amended): for every chunk produced by group_nodes_bulk, if a
placement group is attached the node count is at most 150; if no placement
group is attached and the chunk's nodes are conventional the node count is at
most 5000; and an accelerator (TPU) chunk's node count is at most the
nodeset's accelerator VM-group size (the trailing remainder chunk may be
smaller than the VM-group size). -/
theorem c2_chunk_size_bounds (nodes : List Node) (rd : Option (ResumeData Node))
    (lkp : Lookup) (nm : String) (ch : BulkChunk)
    (h : (nm, ch) ∈ group_nodes_bulk nodes rd lkp) :
    (ch.placement_group.isSome = true → ch.nodes.length ≤ PLACEMENT_MAX_CNT) ∧
    (ch.placement_group = none → lkp.node_is_tpu (ch.nodes.headD 0) = false →
      ch.nodes.length ≤ BULK_INSERT_LIMIT) ∧
    (lkp.node_is_tpu (ch.nodes.headD 0) = true →
      ch.nodes.length ≤ (lkp.node_nodeset (ch.nodes.headD 0)).vmcount) := by
  have hmem := (mem_group_nodes_bulk nodes rd lkp (nm, ch) h).2
  rcases grouped_chunk_spec (sortDedup nodes) (rd.getD { jobs := [] }) lkp ch hmem with
    ⟨-, -, -, hpg, hconv, htpu⟩
  exact ⟨hpg, fun _ => hconv, htpu⟩

/-- C2 witness: the size bounds instantiated on a concrete invocation
(3 jobless TPU nodes, VM-group size 2, first chunk). -/
theorem c2_chunk_size_bounds_witness :
    (("t:0", chunkT0) ∈ group_nodes_bulk [0, 1, 2] none lkpTPU) ∧
    ((chunkT0.placement_group.isSome = true → chunkT0.nodes.length ≤ PLACEMENT_MAX_CNT) ∧
      (chunkT0.placement_group = none → lkpTPU.node_is_tpu (chunkT0.nodes.headD 0) = false →
        chunkT0.nodes.length ≤ BULK_INSERT_LIMIT) ∧
      (lkpTPU.node_is_tpu (chunkT0.nodes.headD 0) = true →
        chunkT0.nodes.length ≤ (lkpTPU.node_nodeset (chunkT0.nodes.headD 0)).vmcount)) := by
  have hmem : ("t:0", chunkT0) ∈ group_nodes_bulk [0, 1, 2] none lkpTPU := by decide
  exact ⟨hmem, c2_chunk_size_bounds [0, 1, 2] none lkpTPU "t:0" chunkT0 hmem⟩

/-! ### Claim C9 -/

theorem firstOccurAux_replicate_mem {κ : Type} [DecidableEq κ] (n : Nat) (a : κ)
    (seen : List κ) (h : a ∈ seen) : firstOccurAux seen (List.replicate n a) = [] := by
  induction n with
  | zero => rfl
  | succ n ih =>
    rw [List.replicate_succ]
    have hunfold : firstOccurAux seen (a :: List.replicate n a) =
        if a ∈ seen then firstOccurAux seen (List.replicate n a)
        else a :: firstOccurAux (a :: seen) (List.replicate n a) := rfl
    rw [hunfold, if_pos h]
    exact ih

theorem firstOccur_replicate {κ : Type} [DecidableEq κ] (n : Nat) (a : κ) :
    firstOccur (List.replicate (n + 1) a) = [a] := by
  rw [firstOccur, List.replicate_succ]
  have hunfold : firstOccurAux [] (a :: List.replicate n a) =
      if a ∈ ([] : List κ) then firstOccurAux [] (List.replicate n a)
      else a :: firstOccurAux [a] (List.replicate n a) := rfl
  rw [hunfold, if_neg (by simp)]
  rw [firstOccurAux_replicate_mem n a [a] (by simp)]

theorem groupby_const {κ : Type} [DecidableEq κ] (l : List Node) (k : κ) (h : l ≠ []) :
    groupby_unsorted l (fun _ => k) = [(k, l)] := by
  unfold groupby_unsorted
  have hmap : l.map (fun _ => k) = List.replicate l.length k := List.map_const' l k
  rcases List.exists_cons_of_ne_nil h with ⟨a, l', rfl⟩
  rw [hmap]
  have hlen : (a :: l').length = l'.length + 1 := rfl
  rw [hlen, firstOccur_replicate]
  simp only [List.map_cons, List.map_nil]
  congr 1
  simp

/-- The single oversized chunk of 5001 jobless TPU nodes whose nodeset has
accelerator VM-group size 5001. -/
def chunkBig : BulkChunk :=
  { nodes := List.range 5001, pfx := "t", chunk_idx := 0, job_id := none,
    partition := none, placement_group := none }

set_option maxRecDepth 8192 in
/-- C9 counterexample: with 5001 jobless TPU nodes in one nodeset whose
accelerator VM-group size is 5001, group_nodes_bulk produces a single chunk
of 5001 nodes, violating the claimed bound len(nodes) <= 5000; the modelled
assert of create_instances_request (which this jobless TPU chunk, whose
partition is None, does reach) fails on it. -/
theorem c9_assert_counterexample :
    (group_nodes_bulk (List.range 5001) none lkpBig).map (fun kv => kv.2.nodes.length) =
      [5001] ∧
    ¬ (5001 ≤ BULK_INSERT_LIMIT) ∧
    create_instances_request lkpBig chunkBig.nodes chunkBig.placement_group = none := by
  have hsorted : (List.range 5001).Sorted (· ≤ ·) := List.sorted_le_range 5001
  have hnset : sortDedup (List.range 5001) = List.range 5001 :=
    sortDedup_of_sorted_nodup _ hsorted (List.nodup_range 5001)
  have hne : List.range 5001 ≠ [] := by
    intro hc
    have := List.range_eq_nil.mp hc
    omega
  have hjobless_all : all_jobless_nodes (List.range 5001) { jobs := [] } = List.range 5001 := by
    simp [all_jobless_nodes]
  have hjobless : jobless_nodes (List.range 5001) { jobs := [] } lkpBig = [] := by
    unfold jobless_nodes separate
    rw [hjobless_all]
    have heq : (fun n => !lkpBig.node_is_tpu n) = (fun _ : Node => false) := rfl
    rw [heq, List.filter_false]
  have hjobless_tpu : jobless_nodes_tpu (List.range 5001) { jobs := [] } lkpBig =
      List.range 5001 := by
    unfold jobless_nodes_tpu separate
    rw [hjobless_all]
    have heq : (fun n => lkpBig.node_is_tpu n) = (fun _ : Node => true) := rfl
    rw [heq, List.filter_true]
  have hnormal : normal_none_group (List.range 5001) { jobs := [] } lkpBig =
      { job_id := none, partition := none, placement_groups := [] } := by
    unfold normal_none_group
    rw [hjobless]
    rfl
  have htpu : tpu_none_group (List.range 5001) { jobs := [] } lkpBig =
      { job_id := none, partition := none,
        placement_groups := [(none, List.range 5001)] } := by
    unfold tpu_none_group
    rw [hjobless_tpu]
    rw [pysort_of_sorted _ hsorted]
  have hvalues : job_groups_values (List.range 5001) { jobs := [] } lkpBig =
      [{ job_id := none, partition := none, placement_groups := [] },
        { job_id := none, partition := none,
          placement_groups := [(none, List.range 5001)] }] := by
    unfold job_groups_values
    rw [hnormal, htpu]
    rfl
  have hgroupby : groupby_unsorted (List.range 5001) (fun n => lkpBig.node_pfx n) =
      [("t", List.range 5001)] := by
    have heq : (fun n => lkpBig.node_pfx n) = (fun _ : Node => ("t" : String)) := rfl
    rw [heq]
    exact groupby_const _ _ hne
  have hchunk : chunk_nodes lkpBig (List.range 5001) = [List.range 5001] := by
    unfold chunk_nodes
    have hcond : (!(List.range 5001).isEmpty &&
        lkpBig.node_is_tpu ((List.range 5001).headD 0)) = true := by
      rw [List.range_succ_eq_map]
      rfl
    rw [hcond]
    simp only [if_pos]
    have hsz : (lkpBig.node_nodeset ((List.range 5001).headD 0)).vmcount = 5001 := rfl
    rw [hsz]
    exact chunked_of_short _ _ (by omega) hne (by rw [List.length_range])
  have hcore : grouped_nodes_core (List.range 5001) { jobs := [] } lkpBig = [chunkBig] := by
    unfold grouped_nodes_core
    rw [hvalues]
    simp only [List.flatMap_cons, List.flatMap_nil]
    rw [hgroupby]
    simp only [List.flatMap_cons, List.flatMap_nil, List.append_nil, List.nil_append]
    rw [hchunk]
    have henum : ([List.range 5001] : List (List Node)).enum = [(0, List.range 5001)] := rfl
    rw [henum]
    simp only [List.map_cons, List.map_nil]
    rfl
  have hdict : group_nodes_bulk (List.range 5001) none lkpBig =
      [(group_name chunkBig, chunkBig)] := by
    unfold group_nodes_bulk grouped_nodes_of
    rw [hnset]
    have hrd : (none : Option (ResumeData Node)).getD { jobs := [] } =
        ({ jobs := [] } : ResumeData Node) := rfl
    rw [hrd, hcore]
    rfl
  refine ⟨?_, by decide, ?_⟩
  · have s1 : (group_nodes_bulk (List.range 5001) none lkpBig).map
        (fun kv => kv.2.nodes.length) =
        [(group_name chunkBig, chunkBig)].map (fun kv => kv.2.nodes.length) := by
      rw [hdict]
    have s2 : ([(group_name chunkBig, chunkBig)] : List (String × BulkChunk)).map
        (fun kv => kv.2.nodes.length) = [chunkBig.nodes.length] := List.map_singleton _ _
    have s3 : ([chunkBig.nodes.length] : List Nat) = [5001] := by
      simp only [chunkBig]
      rw [List.length_range]
    exact s1.trans (s2.trans s3)
  · have hnodes : chunkBig.nodes = List.range 5001 := by simp only [chunkBig]
    have hpg : chunkBig.placement_group = none := by simp only [chunkBig]
    rw [hnodes, hpg]
    unfold create_instances_request
    rw [List.length_range]
    decide

/-- C9 (amended): every chunk produced by group_nodes_bulk has a non-empty
node list, and provided every nodeset's accelerator VM-group size is at most
the bulk-insert limit 5000, every chunk also has at most 5000 nodes, so the
precondition 0 < len(nodes) <= 5000 asserted at the top of
create_instances_request holds for every chunk. -/
theorem c9_chunks_nonempty_bounded (nodes : List Node) (rd : Option (ResumeData Node))
    (lkp : Lookup) (hvm : ∀ s, (lkp.cfg_nodeset s).vmcount ≤ BULK_INSERT_LIMIT)
    (nm : String) (ch : BulkChunk) (h : (nm, ch) ∈ group_nodes_bulk nodes rd lkp) :
    0 < ch.nodes.length ∧ ch.nodes.length ≤ BULK_INSERT_LIMIT := by
  have hmem := (mem_group_nodes_bulk nodes rd lkp (nm, ch) h).2
  rcases grouped_chunk_spec (sortDedup nodes) (rd.getD { jobs := [] }) lkp ch hmem with
    ⟨hne, -, -, -, hconv, htpu⟩
  refine ⟨List.length_pos.mpr hne, ?_⟩
  by_cases ht : lkp.node_is_tpu (ch.nodes.headD 0) = true
  · exact le_trans (htpu ht) (hvm (lkp.node_pfx (ch.nodes.headD 0)))
  · exact hconv (by simpa using ht)

/-- C9 witness: the amended bound instantiated on a concrete invocation
(3 jobless TPU nodes, VM-group size 2). -/
theorem c9_chunks_nonempty_bounded_witness :
    (∀ s, (lkpTPU.cfg_nodeset s).vmcount ≤ BULK_INSERT_LIMIT) ∧
    (("t:1", chunkT1) ∈ group_nodes_bulk [0, 1, 2] none lkpTPU) ∧
    (0 < chunkT1.nodes.length ∧ chunkT1.nodes.length ≤ BULK_INSERT_LIMIT) := by
  have hvm : ∀ s, (lkpTPU.cfg_nodeset s).vmcount ≤ BULK_INSERT_LIMIT := fun _ => by
    show (2 : Nat) ≤ 5000
    decide
  have hmem : ("t:1", chunkT1) ∈ group_nodes_bulk [0, 1, 2] none lkpTPU := by decide
  exact ⟨hvm, hmem, c9_chunks_nonempty_bounded [0, 1, 2] none lkpTPU hvm "t:1" chunkT1 hmem⟩

/-! ### Claim C7 -/

/-- C7: for every chunk accepted by the bulk-request builder, the body's
count field equals the number of nodes, and minCount is absent exactly when a
placement group is attached and equals 1 otherwise. -/
theorem c7_request_shape (lkp : Lookup) (nodes : List Node) (pg : Option String)
    (body : BulkInsertBody) (h : create_instances_request lkp nodes pg = some body) :
    body.count = nodes.length ∧ (body.minCount = none ↔ pg.isSome = true) ∧
    (pg = none → body.minCount = some 1) := by
  unfold create_instances_request at h
  by_cases h1 : (!(0 < nodes.length && nodes.length ≤ BULK_INSERT_LIMIT)) = true
  · rw [if_pos h1] at h
    cases h
  · rw [if_neg h1] at h
    simp only at h
    rcases pg with _ | g
    · rcases Option.some.inj h with rfl
      exact ⟨rfl, by simp, fun _ => rfl⟩
    · by_cases h2 : (!(nodes.length ≤ PLACEMENT_MAX_CNT)) = true
      · rw [if_pos h2] at h
        cases h
      · rw [if_neg h2] at h
        rcases Option.some.inj h with rfl
        exact ⟨rfl, by simp, fun hc => by cases hc⟩

/-- C7 witness: the request shape instantiated at a concrete node list, with
and without a placement group. -/
theorem c7_request_shape_witness :
    (create_instances_request lkp0 [0, 1] none =
      some { count := 2, minCount := some 1, sourceInstanceTemplate := "tmpl",
             perInstanceProperties := [0, 1] }) ∧
    (({ count := 2, minCount := some 1, sourceInstanceTemplate := "tmpl",
        perInstanceProperties := [0, 1] } : BulkInsertBody).count = ([0, 1] : List Node).length ∧
      (({ count := 2, minCount := some 1, sourceInstanceTemplate := "tmpl",
          perInstanceProperties := [0, 1] } : BulkInsertBody).minCount = none ↔
        (none : Option String).isSome = true) ∧
      ((none : Option String) = none →
        ({ count := 2, minCount := some 1, sourceInstanceTemplate := "tmpl",
           perInstanceProperties := [0, 1] } : BulkInsertBody).minCount = some 1)) := by
  have h : create_instances_request lkp0 [0, 1] none =
      some { count := 2, minCount := some 1, sourceInstanceTemplate := "tmpl",
             perInstanceProperties := [0, 1] } := by decide
  exact ⟨h, c7_request_shape lkp0 [0, 1] none _ h⟩

/-! ### Claim C10 -/

/-- C10: group_nodes_bulk is invariant under reordering and duplication of
its input node list — two inputs with the same member set, the same resume
data and the same configuration produce the same mapping. -/
theorem c10_input_set_invariance (l₁ l₂ : List Node) (rd : Option (ResumeData Node))
    (lkp : Lookup) (h : ∀ x, x ∈ l₁ ↔ x ∈ l₂) :
    group_nodes_bulk l₁ rd lkp = group_nodes_bulk l₂ rd lkp := by
  unfold group_nodes_bulk grouped_nodes_of
  rw [sortDedup_ext l₁ l₂ h]

/-- C10 witness: a permuted input with duplicates gives the same mapping as
the sorted duplicate-free input. -/
theorem c10_input_set_invariance_witness :
    (∀ x : Node, x ∈ [1, 0, 1] ↔ x ∈ [0, 1]) ∧
    group_nodes_bulk [1, 0, 1] none lkp0 = group_nodes_bulk [0, 1] none lkp0 := by
  have h : ∀ x : Node, x ∈ [1, 0, 1] ↔ x ∈ [0, 1] := by
    intro x
    simp only [List.mem_cons, List.not_mem_nil, or_false]
    constructor
    · rintro (rfl | rfl | rfl) <;> simp
    · rintro (rfl | rfl) <;> simp
  exact ⟨h, c10_input_set_invariance [1, 0, 1] [0, 1] none lkp0 h⟩

/-! ### Claim C6 -/

/-- C6: a node list of fewer than 2 nodes, a nodeset with placement
disabled, or a list containing a disallowed machine family makes
create_nodeset_placement_groups return the single no-policy bucket holding
the whole node list, and no placement-group creation request is issued. -/
theorem c6_no_policy_bucket (lkp : Lookup) (nl : List Node) (job_id : Nat)
    (resp : String → PgOpResult)
    (h : nl.length < 2 ∨ (lkp.node_nodeset (nl.headD 0)).enable_placement = false ∨
      ∃ n ∈ nl, machineFamily (lkp.machine_type n) ∈ invalid_types) :
    create_nodeset_placement_groups lkp nl job_id = [(none, nl)] ∧
    (create_nodeset_placement_groups_run lkp nl job_id resp).requests = [] := by
  by_cases h1 : nl.length < 2
  · unfold create_nodeset_placement_groups create_nodeset_placement_groups_run
    rw [if_pos h1, if_pos h1]
    exact ⟨rfl, rfl⟩
  · have hcond : (!((lkp.node_nodeset (nl.headD 0)).enable_placement &&
        valid_placement_nodes lkp nl)) = true := by
      rcases h with h | h | h
      · exact absurd h h1
      · rw [h, Bool.false_and]
        rfl
      · have hv : valid_placement_nodes lkp nl = false := by
          rcases h with ⟨n, hn, hfam⟩
          unfold valid_placement_nodes
          apply List.all_eq_false.mpr
          refine ⟨n, hn, ?_⟩
          simpa using hfam
        rw [hv, Bool.and_false]
        rfl
    unfold create_nodeset_placement_groups create_nodeset_placement_groups_run
    rw [if_neg h1, if_neg h1]
    simp only [if_pos hcond]
    exact ⟨by trivial, by trivial⟩

/-- C6 witness: two nodes whose nodeset disables placement give the single
no-policy bucket and no creation request. -/
theorem c6_no_policy_bucket_witness :
    ((lkp0.node_nodeset (([0, 1] : List Node).headD 0)).enable_placement = false) ∧
    (create_nodeset_placement_groups lkp0 [0, 1] 7 = [(none, [0, 1])] ∧
      (create_nodeset_placement_groups_run lkp0 [0, 1] 7 (fun _ => PgOpResult.ok)).requests = []) := by
  have hd : (lkp0.node_nodeset (([0, 1] : List Node).headD 0)).enable_placement = false := by
    decide
  exact ⟨hd, c6_no_policy_bucket lkp0 [0, 1] 7 (fun _ => PgOpResult.ok) (Or.inr (Or.inl hd))⟩

/-! ### Claim C5 -/

theorem cnpg_run_groups (lkp : Lookup) (nl : List Node) (job_id : Nat)
    (r : String → PgOpResult) :
    (create_nodeset_placement_groups_run lkp nl job_id r).groups =
      create_nodeset_placement_groups lkp nl job_id := by
  unfold create_nodeset_placement_groups_run create_nodeset_placement_groups
  by_cases h1 : nl.length < 2
  · rw [if_pos h1, if_pos h1]
  · rw [if_neg h1, if_neg h1]
    by_cases h2 : (!((lkp.node_nodeset (nl.headD 0)).enable_placement &&
        valid_placement_nodes lkp nl)) = true
    · simp only [if_pos h2]
    · simp only [if_neg h2]

theorem cnpg_run_classifications (lkp : Lookup) (nl : List Node) (job_id : Nat)
    (r : String → PgOpResult) (nm cls : String)
    (hmem : (nm, cls) ∈ (create_nodeset_placement_groups_run lkp nl job_id r).classifications) :
    cls = classify_result (r nm) := by
  unfold create_nodeset_placement_groups_run at hmem
  by_cases h1 : nl.length < 2
  · rw [if_pos h1] at hmem
    simp at hmem
  · rw [if_neg h1] at hmem
    by_cases h2 : (!((lkp.node_nodeset (nl.headD 0)).enable_placement &&
        valid_placement_nodes lkp nl)) = true
    · simp only [if_pos h2] at hmem
      simp at hmem
    · simp only [if_neg h2] at hmem
      rcases List.mem_map.mp hmem with ⟨nm', -, heq⟩
      have hnm : nm' = nm := congrArg Prod.fst heq
      subst hnm
      exact (congrArg Prod.snd heq).symm

/-- C5: the mapping returned by create_nodeset_placement_groups does not
depend on the provider's responses — a second call with the same node list
and job id yields the same placement-group names, which are the
deterministic pg_name function of cluster name, nodeset name, job id and
chunk index — and any request whose provider outcome is an exception whose
every error reason is alreadyExists is classified redundant, never failed. -/
theorem c5_placement_idempotent (lkp : Lookup) (nl : List Node) (job_id : Nat)
    (r₁ r₂ : String → PgOpResult) :
    (create_nodeset_placement_groups_run lkp nl job_id r₁).groups =
      (create_nodeset_placement_groups_run lkp nl job_id r₂).groups ∧
    (∀ kv ∈ (create_nodeset_placement_groups_run lkp nl job_id r₁).groups,
      ∀ g, kv.1 = some g →
        ∃ i, g = pg_name lkp (lkp.node_nodeset (nl.headD 0)).nodeset_name job_id i) ∧
    (∀ nm cls,
      (nm, cls) ∈ (create_nodeset_placement_groups_run lkp nl job_id r₂).classifications →
      ∀ ds, r₂ nm = PgOpResult.exc ds → (∀ d ∈ ds, d = some "alreadyExists") →
        cls = "redundant") := by
  refine ⟨(cnpg_run_groups lkp nl job_id r₁).trans (cnpg_run_groups lkp nl job_id r₂).symm,
    ?_, ?_⟩
  · intro kv hkv g hg
    rw [cnpg_run_groups lkp nl job_id r₁] at hkv
    rcases (cnpg_entry_spec lkp nl job_id kv hkv).2 g hg with ⟨-, -, i, hi⟩
    exact ⟨i, hi⟩
  · intro nm cls hmem ds hresp hall
    rw [cnpg_run_classifications lkp nl job_id r₂ nm cls hmem, hresp]
    have hall' : ds.all (fun r => r = some "alreadyExists") = true := by
      apply List.all_eq_true.mpr
      intro d hd
      simp [hall d hd]
    simp [classify_result, hall']

/-- C5 witness: a concrete two-node run where the second call's provider
reports alreadyExists for the created group; the classification is
redundant and the returned groups are response-independent. -/
theorem c5_placement_idempotent_witness :
    ((create_nodeset_placement_groups_run lkpC3 [0, 1] 0 (fun _ => PgOpResult.ok)).groups =
      (create_nodeset_placement_groups_run lkpC3 [0, 1] 0
        (fun _ => PgOpResult.exc [some "alreadyExists"])).groups) ∧
    classify_result ((fun _ : String => PgOpResult.exc [some "alreadyExists"])
      "c-slurmgcp-managed-n-0-0") = "redundant" := by
  have h := c5_placement_idempotent lkpC3 [0, 1] 0 (fun _ => PgOpResult.ok)
    (fun _ => PgOpResult.exc [some "alreadyExists"])
  refine ⟨h.1, ?_⟩
  have hmem : ("c-slurmgcp-managed-n-0-0",
      classify_result ((fun _ : String => PgOpResult.exc [some "alreadyExists"])
        "c-slurmgcp-managed-n-0-0")) ∈
      (create_nodeset_placement_groups_run lkpC3 [0, 1] 0
        (fun _ => PgOpResult.exc [some "alreadyExists"])).classifications := by decide
  exact h.2.2 _ _ hmem [some "alreadyExists"] rfl (by decide)

/-! ### Claim C8 -/

/-- Recognizer for the mark-down command. -/
def is_down_cmd : SchedCmd → Bool
  | SchedCmd.down _ _ => true
  | _ => false

/-- C8: down_nodes_notify_jobs issues the mark-down command exactly once,
over the compressed host-range of the whole node set; with no resume data it
issues nothing else; with resume data it issues a comment-update and a
notify command for exactly the jobs whose allocation intersects the node
set. -/
theorem c8_down_notify (nodes : List String) (reason : String)
    (rd : Option (ResumeData String)) :
    ((down_nodes_notify_jobs nodes reason rd).filter is_down_cmd =
      [SchedCmd.down (to_hostlist_fast nodes) (shlex_quote reason)]) ∧
    (rd = none → down_nodes_notify_jobs nodes reason rd =
      [SchedCmd.down (to_hostlist_fast nodes) (shlex_quote reason)]) ∧
    (∀ d, rd = some d → ∀ j : Nat,
      ((SchedCmd.update_job j (shlex_quote reason) ∈ down_nodes_notify_jobs nodes reason rd ↔
        ∃ job ∈ d.jobs, job.job_id = j ∧ ∃ n ∈ job.nodes_alloc, n ∈ nodes) ∧
       (SchedCmd.notify_job j (shlex_quote reason) ∈ down_nodes_notify_jobs nodes reason rd ↔
        ∃ job ∈ d.jobs, job.job_id = j ∧ ∃ n ∈ job.nodes_alloc, n ∈ nodes))) := by
  rcases rd with _ | d
  · refine ⟨?_, fun _ => rfl, fun d hd => by cases hd⟩
    unfold down_nodes_notify_jobs
    rfl
  · have hcmds : down_nodes_notify_jobs nodes reason (some d) =
        SchedCmd.down (to_hostlist_fast nodes) (shlex_quote reason) ::
          d.jobs.flatMap (fun job =>
            if (job.nodes_alloc.filter (fun n => n ∈ nodes)).isEmpty then []
            else [SchedCmd.update_job job.job_id (shlex_quote reason),
                  SchedCmd.notify_job job.job_id (shlex_quote reason)]) := rfl
    have htail : ∀ c ∈ d.jobs.flatMap (fun job =>
        if (job.nodes_alloc.filter (fun n => n ∈ nodes)).isEmpty then []
        else [SchedCmd.update_job job.job_id (shlex_quote reason),
              SchedCmd.notify_job job.job_id (shlex_quote reason)]),
        is_down_cmd c = false := by
      intro c hc
      rcases List.mem_flatMap.mp hc with ⟨job, -, hcj⟩
      by_cases hemp : (job.nodes_alloc.filter (fun n => n ∈ nodes)).isEmpty = true
      · rw [if_pos hemp] at hcj
        simp at hcj
      · rw [if_neg hemp] at hcj
        rcases List.mem_cons.mp hcj with rfl | hcj
        · rfl
        · rcases List.mem_cons.mp hcj with rfl | hcj
          · rfl
          · simp at hcj
    refine ⟨?_, ?_, ?_⟩
    · rw [hcmds]
      rw [List.filter_cons]
      simp only [is_down_cmd, if_pos]
      rw [List.filter_eq_nil_iff.mpr (by
        intro c hc
        rw [htail c hc]
        simp)]
    · intro hc
      exact Option.noConfusion hc
    · intro d' hd' j
      rcases Option.some.inj hd' with rfl
      constructor
      · rw [hcmds]
        constructor
        · intro hin
          rcases List.mem_cons.mp hin with heq | hin
          · exact absurd heq (by simp)
          · rcases List.mem_flatMap.mp hin with ⟨job, hjob, hcj⟩
            by_cases hemp : (job.nodes_alloc.filter (fun n => n ∈ nodes)).isEmpty = true
            · rw [if_pos hemp] at hcj
              simp at hcj
            · rw [if_neg hemp] at hcj
              have hj : job.job_id = j := by
                rcases List.mem_cons.mp hcj with heq | hcj
                · exact (SchedCmd.update_job.inj heq.symm).1
                · rcases List.mem_cons.mp hcj with heq | hcj
                  · exact absurd heq (by simp)
                  · simp at hcj
              rcases List.exists_mem_of_ne_nil
                (job.nodes_alloc.filter (fun n => n ∈ nodes))
                (fun hnil => hemp (by rw [hnil]; rfl)) with ⟨n, hn⟩
              have := List.mem_filter.mp hn
              exact ⟨job, hjob, hj, n, this.1, by simpa using this.2⟩
        · rintro ⟨job, hjob, hj, n, hna, hnn⟩
          apply List.mem_cons_of_mem
          apply List.mem_flatMap.mpr
          refine ⟨job, hjob, ?_⟩
          have hemp : (job.nodes_alloc.filter (fun n => n ∈ nodes)).isEmpty = false := by
            have : n ∈ job.nodes_alloc.filter (fun n => n ∈ nodes) :=
              List.mem_filter.mpr ⟨hna, by simpa using hnn⟩
            rcases hfil : job.nodes_alloc.filter (fun n => n ∈ nodes) with _ | ⟨a, l⟩
            · rw [hfil] at this
              simp at this
            · rfl
          rw [if_neg (by rw [hemp]; simp)]
          rw [hj]
          exact List.mem_cons_self _ _
      · rw [hcmds]
        constructor
        · intro hin
          rcases List.mem_cons.mp hin with heq | hin
          · exact absurd heq (by simp)
          · rcases List.mem_flatMap.mp hin with ⟨job, hjob, hcj⟩
            by_cases hemp : (job.nodes_alloc.filter (fun n => n ∈ nodes)).isEmpty = true
            · rw [if_pos hemp] at hcj
              simp at hcj
            · rw [if_neg hemp] at hcj
              have hj : job.job_id = j := by
                rcases List.mem_cons.mp hcj with heq | hcj
                · exact absurd heq (by simp)
                · rcases List.mem_cons.mp hcj with heq | hcj
                  · exact (SchedCmd.notify_job.inj heq.symm).1
                  · simp at hcj
              rcases List.exists_mem_of_ne_nil
                (job.nodes_alloc.filter (fun n => n ∈ nodes))
                (fun hnil => hemp (by rw [hnil]; rfl)) with ⟨n, hn⟩
              have := List.mem_filter.mp hn
              exact ⟨job, hjob, hj, n, this.1, by simpa using this.2⟩
        · rintro ⟨job, hjob, hj, n, hna, hnn⟩
          apply List.mem_cons_of_mem
          apply List.mem_flatMap.mpr
          refine ⟨job, hjob, ?_⟩
          have hemp : (job.nodes_alloc.filter (fun n => n ∈ nodes)).isEmpty = false := by
            have : n ∈ job.nodes_alloc.filter (fun n => n ∈ nodes) :=
              List.mem_filter.mpr ⟨hna, by simpa using hnn⟩
            rcases hfil : job.nodes_alloc.filter (fun n => n ∈ nodes) with _ | ⟨a, l⟩
            · rw [hfil] at this
              simp at this
            · rfl
          rw [if_neg (by rw [hemp]; simp)]
          rw [hj]
          exact List.mem_cons_of_mem _ (List.mem_cons_self _ _)

/-- Resume data used by the C8 witness: job 5 intersects the node set, job 6
does not. -/
def rdW : ResumeData String :=
  { jobs := [
      { job_id := 5, partition := "p", nodes_alloc := ["n2", "n3"] },
      { job_id := 6, partition := "p", nodes_alloc := ["n4"] }] }

/-- C8 witness: a concrete two-node quarantine with resume data present:
one down command over the whole host range, and update plus notify for
exactly the intersecting job. -/
theorem c8_down_notify_witness :
    ((down_nodes_notify_jobs ["n1", "n2"] "r" (some rdW)).filter is_down_cmd =
      [SchedCmd.down (to_hostlist_fast ["n1", "n2"]) (shlex_quote "r")]) ∧
    (SchedCmd.update_job 5 (shlex_quote "r") ∈
      down_nodes_notify_jobs ["n1", "n2"] "r" (some rdW)) ∧
    (SchedCmd.notify_job 5 (shlex_quote "r") ∈
      down_nodes_notify_jobs ["n1", "n2"] "r" (some rdW)) ∧
    ¬ (SchedCmd.update_job 6 (shlex_quote "r") ∈
      down_nodes_notify_jobs ["n1", "n2"] "r" (some rdW)) := by
  have h := c8_down_notify ["n1", "n2"] "r" (some rdW)
  refine ⟨h.1, ?_, ?_, ?_⟩
  · exact ((h.2.2 rdW rfl 5).1).mpr (by decide)
  · exact ((h.2.2 rdW rfl 5).2).mpr (by decide)
  · intro hc
    exact absurd (((h.2.2 rdW rfl 6).1).mp hc) (by decide)

/-! ### Claim C4 -/

theorem strJoin_mem_infix (sep : String) (parts : List String) (x : String)
    (hx : x ∈ parts) : x.data <:+: (strJoin sep parts).data := by
  induction parts with
  | nil => simp at hx
  | cons p rest ih =>
    cases rest with
    | nil =>
      rcases List.mem_singleton.mp hx with rfl
      exact List.infix_refl _
    | cons q rest' =>
      rcases List.mem_cons.mp hx with rfl | hx
      · have : (strJoin sep (x :: q :: rest')).data =
            x.data ++ (sep.data ++ (strJoin sep (q :: rest')).data) := by
          show (x ++ sep ++ strJoin sep (q :: rest')).data = _
          rw [String.data_append, String.data_append, List.append_assoc]
        rw [this]
        exact (List.prefix_append _ _).isInfix
      · have hstep : (strJoin sep (p :: q :: rest')).data =
            (p.data ++ sep.data) ++ (strJoin sep (q :: rest')).data := by
          show (p ++ sep ++ strJoin sep (q :: rest')).data = _
          rw [String.data_append, String.data_append]
        rw [hstep]
        exact (ih hx).trans (List.suffix_append _ _).isInfix

theorem self_mem_groupby {α κ : Type} [DecidableEq κ] (seq : List α) (key : α → κ)
    (x : α) (hx : x ∈ seq) :
    (key x, seq.filter (fun y => key y = key x)) ∈ groupby_unsorted seq key := by
  unfold groupby_unsorted
  apply List.mem_map.mpr
  exact ⟨key x, (mem_firstOccur _ _).mpr (List.mem_map.mpr ⟨x, hx, rfl⟩), rfl⟩

theorem failed_nodes_keys_mem (b : List InsOp) (n : String) :
    n ∈ (failed_nodes_dict b).map (fun kv => kv.1) ↔
    ∃ op ∈ b, trim_self_link op.targetLink = n := by
  constructor
  · intro h
    rcases List.mem_map.mp h with ⟨kv, hkv, rfl⟩
    have := mem_dictOf _ _ hkv
    rcases List.mem_map.mp this with ⟨op, hop, rfl⟩
    exact ⟨op, hop, rfl⟩
  · rintro ⟨op, hop, rfl⟩
    have hpair : (trim_self_link op.targetLink, op) ∈
        b.map (fun op => (trim_self_link op.targetLink, op)) :=
      List.mem_map.mpr ⟨op, hop, rfl⟩
    have := mem_dkeys_dictOf _ _ hpair
    exact this

theorem failed_nodes_entry (b : List InsOp) (kv : String × InsOp)
    (h : kv ∈ failed_nodes_dict b) : kv.2 ∈ b ∧ kv.1 = trim_self_link kv.2.targetLink := by
  have := mem_dictOf _ _ h
  rcases List.mem_map.mp this with ⟨op, hop, rfl⟩
  exact ⟨hop, rfl⟩

theorem failed_nodes_dict_ne_nil (b : List InsOp) (hb : b ≠ []) :
    failed_nodes_dict b ≠ [] := by
  unfold failed_nodes_dict dictOf
  apply dupdate_ne_nil
  right
  intro hc
  exact hb (List.map_eq_nil_iff.mp hc)

theorem code_infix_insert_msg (op : InsOp) (e : InsErr) (he : e ∈ op.error.getD []) :
    e.code.data <:+: (insert_msg op).data := by
  have hpart : (e.code ++ ": " ++ (e.message.getD "no message")) ∈
      ((op.error.getD []).map (fun e => e.code ++ ": " ++ (e.message.getD "no message"))) :=
    List.mem_map.mpr ⟨e, he, rfl⟩
  have hinf := strJoin_mem_infix "; " _ _ hpart
  refine List.IsInfix.trans ?_ hinf
  have : (e.code ++ ": " ++ (e.message.getD "no message")).data =
      e.code.data ++ ((": ").data ++ (e.message.getD "no message").data) := by
    rw [String.data_append, String.data_append, List.append_assoc]
  rw [this]
  exact (List.prefix_append _ _).isInfix

/-- C4: while reconciling a completed bulk operation, a node receives a
mark-down call iff some failed per-instance insert targets it with a
concatenated error code other than RESOURCE_ALREADY_EXISTS; and every issued
call's reason string contains each error code of the bucket's representative
failed operation. -/
theorem c4_reconcile_quarantine (ops : List InsOp) :
    (∀ n : String,
      (∃ call ∈ reconcile_down_calls ops, n ∈ call.1) ↔
      (∃ op ∈ ops, op.error.isSome = true ∧ trim_self_link op.targetLink = n ∧
        joined_code op ≠ "RESOURCE_ALREADY_EXISTS")) ∧
    (∀ call ∈ reconcile_down_calls ops, ∃ op ∈ ops, op.error.isSome = true ∧
      trim_self_link op.targetLink ∈ call.1 ∧
      joined_code op ≠ "RESOURCE_ALREADY_EXISTS" ∧
      ∀ e ∈ op.error.getD [], e.code.data <:+: call.2.data) := by
  constructor
  · intro n
    constructor
    · rintro ⟨call, hcall, hn⟩
      unfold reconcile_down_calls at hcall
      rcases List.mem_map.mp hcall with ⟨cb, hcb, rfl⟩
      have hcb' := List.mem_filter.mp hcb
      rcases hn with hn
      rcases (failed_nodes_keys_mem cb.2 n).mp hn with ⟨op, hop, htrim⟩
      rcases mem_groupby_unsorted _ _ cb.1 cb.2 hcb'.1 with ⟨hfil, -⟩
      have hopf : op ∈ (separate (fun op => op.error.isSome) ops).2 := by
        rw [hfil] at hop
        exact (List.mem_filter.mp hop).1
      have hopc : joined_code op = cb.1 := by
        rw [hfil] at hop
        simpa using (List.mem_filter.mp hop).2
      have hops : op ∈ ops := (List.mem_filter.mp hopf).1
      have hsome : op.error.isSome = true := by
        simpa using (List.mem_filter.mp hopf).2
      refine ⟨op, hops, hsome, htrim, ?_⟩
      rw [hopc]
      simpa using hcb'.2
    · rintro ⟨op, hop, hsome, htrim, hcode⟩
      unfold reconcile_down_calls
      have hopf : op ∈ (separate (fun op => op.error.isSome) ops).2 :=
        List.mem_filter.mpr ⟨hop, by simpa using hsome⟩
      have hbk := self_mem_groupby (separate (fun op => op.error.isSome) ops).2
        joined_code op hopf
      have hbk' : (joined_code op,
          (separate (fun op => op.error.isSome) ops).2.filter
            (fun y => joined_code y = joined_code op)) ∈
          (groupby_unsorted (separate (fun op => op.error.isSome) ops).2
            joined_code).filter (fun cb => cb.1 ≠ "RESOURCE_ALREADY_EXISTS") :=
        List.mem_filter.mpr ⟨hbk, by simpa using hcode⟩
      refine ⟨_, List.mem_map.mpr ⟨_, hbk', rfl⟩, ?_⟩
      apply (failed_nodes_keys_mem _ n).mpr
      exact ⟨op, List.mem_filter.mpr ⟨hopf, by simp⟩, htrim⟩
  · intro call hcall
    unfold reconcile_down_calls at hcall
    rcases List.mem_map.mp hcall with ⟨cb, hcb, rfl⟩
    have hcb' := List.mem_filter.mp hcb
    have hbne : cb.2 ≠ [] :=
      groupby_unsorted_bucket_ne_nil _ _ cb.1 cb.2 hcb'.1
    have hdne : failed_nodes_dict cb.2 ≠ [] := failed_nodes_dict_ne_nil cb.2 hbne
    have hrep : (failed_nodes_dict cb.2).headD ("", { targetLink := "", error := none }) ∈
        failed_nodes_dict cb.2 := headD_mem _ _ hdne
    rcases failed_nodes_entry cb.2 _ hrep with ⟨hrep2, hrep1⟩
    have hopf : ((failed_nodes_dict cb.2).headD ("", { targetLink := "", error := none })).2 ∈
        (separate (fun op => op.error.isSome) ops).2 :=
      groupby_unsorted_bucket_sub _ joined_code cb.1 cb.2 hcb'.1 _ hrep2
    have hopc : joined_code ((failed_nodes_dict cb.2).headD
        ("", { targetLink := "", error := none })).2 = cb.1 :=
      groupby_unsorted_bucket_key _ joined_code cb.1 cb.2 hcb'.1 _ hrep2
    refine ⟨_, (List.mem_filter.mp hopf).1, by simpa using (List.mem_filter.mp hopf).2,
      ?_, ?_, ?_⟩
    · rw [← hrep1]
      exact List.mem_map.mpr ⟨_, hrep, rfl⟩
    · rw [hopc]
      simpa using hcb'.2
    · intro e he
      have hmsg := code_infix_insert_msg _ e he
      refine hmsg.trans ?_
      have : (("GCP Error: " : String) ++ insert_msg ((failed_nodes_dict cb.2).headD
          ("", { targetLink := "", error := none })).2).data =
          ("GCP Error: ").data ++ (insert_msg ((failed_nodes_dict cb.2).headD
            ("", { targetLink := "", error := none })).2).data := String.data_append _ _
      rw [this]
      exact (List.suffix_append _ _).isInfix

/-- Insert operations used by the C4 witness: one quota failure, one
already-exists failure, one success. -/
def opsW : List InsOp :=
  [{ targetLink := "x/p/nodeA", error := some [{ code := "QUOTA_EXCEEDED", message := some "m" }] },
   { targetLink := "x/p/nodeB", error := some [{ code := "RESOURCE_ALREADY_EXISTS", message := none }] },
   { targetLink := "x/p/nodeC", error := none }]

/-- C4 witness: the quota-failed node is quarantined, the already-exists
node is not. -/
theorem c4_reconcile_quarantine_witness :
    (∃ call ∈ reconcile_down_calls opsW, "nodeA" ∈ call.1) ∧
    ¬ (∃ call ∈ reconcile_down_calls opsW, "nodeB" ∈ call.1) := by
  have h := c4_reconcile_quarantine opsW
  constructor
  · exact (h.1 "nodeA").mpr (by decide)
  · intro hc
    exact absurd ((h.1 "nodeB").mp hc) (by decide)

/-! ### Claim C1 -/

/-- C1 (code bug): with two nodes in two distinct placement-disabled
nodesets and no resume data, create_placement_groups lets the second
nodeset's no-policy bucket overwrite the first under the shared None key, so
node 0 appears in no chunk of the returned mapping — the union of the chunks
is not the input node set. -/
theorem c1_lost_node_bug :
    ((0 : Node) ∈ [0, 1]) ∧
    ((group_nodes_bulk [0, 1] none lkpC1).map (fun kv => (kv.1, kv.2.nodes)) =
      [("b:0", [1])]) ∧
    (∀ kv ∈ group_nodes_bulk [0, 1] none lkpC1, (0 : Node) ∉ kv.2.nodes) := by
  decide

/-! ### Claim C3: structural uniqueness of chunk provenance -/

theorem job_groups_jobs_entry (lkp : Lookup) (nset : List Node)
    (jobs : List (ResumeJobData Node)) (kv : Nat × JobGroup)
    (h : kv ∈ job_groups_jobs lkp nset jobs) :
    kv.2.job_id = some kv.1 := by
  rcases mem_foldl_dinsert (fun job : ResumeJobData Node => job.job_id)
    (fun job => job_group_of lkp nset job) jobs [] kv h with h' | h'
  · simp at h'
  · rcases h' with ⟨job, -, rfl⟩
    exact job_group_of_job_id lkp nset job

theorem foldl_dinsert_keys_nodup {α κ β : Type} [DecidableEq κ] (key : α → κ)
    (val : α → β) (l : List α) (acc : List (κ × β)) (hacc : (dkeys acc).Nodup) :
    (dkeys (l.foldl (fun d a => dinsert (key a) (val a) d) acc)).Nodup := by
  induction l generalizing acc with
  | nil => simpa using hacc
  | cons a rest ih =>
    simp only [List.foldl_cons]
    exact ih (dinsert (key a) (val a) acc) (dkeys_dinsert_nodup _ _ acc hacc)

theorem job_groups_jobs_keys_nodup (lkp : Lookup) (nset : List Node)
    (jobs : List (ResumeJobData Node)) :
    (dkeys (job_groups_jobs lkp nset jobs)).Nodup :=
  foldl_dinsert_keys_nodup _ _ jobs [] (by simp [dkeys])

theorem jg_some_unique (nset : List Node) (rd : ResumeData Node) (lkp : Lookup)
    (jg₁ jg₂ : JobGroup) (j : Nat)
    (h₁ : jg₁ ∈ job_groups_values nset rd lkp) (h₂ : jg₂ ∈ job_groups_values nset rd lkp)
    (hj₁ : jg₁.job_id = some j) (hj₂ : jg₂.job_id = some j) : jg₁ = jg₂ := by
  have hfrom : ∀ jg : JobGroup, jg ∈ job_groups_values nset rd lkp → jg.job_id = some j →
      (j, jg) ∈ job_groups_jobs lkp nset rd.jobs := by
    intro jg hjg hj
    rcases List.mem_append.mp hjg with h' | h'
    · rcases List.mem_map.mp h' with ⟨kv, hkv, rfl⟩
      have := job_groups_jobs_entry lkp nset rd.jobs kv hkv
      have hkj : kv.1 = j := by
        rw [this] at hj
        exact Option.some.inj hj
      rw [← hkj]
      exact hkv
    · exfalso
      rcases List.mem_cons.mp h' with rfl | h''
      · simp [normal_none_group] at hj
      · rcases List.mem_singleton.mp h'' with rfl
        simp [tpu_none_group] at hj
  exact dict_key_unique _ (job_groups_jobs_keys_nodup lkp nset rd.jobs) j jg₁ jg₂
    (hfrom jg₁ h₁ hj₁) (hfrom jg₂ h₂ hj₂)

theorem jg_none_cases (nset : List Node) (rd : ResumeData Node) (lkp : Lookup)
    (jg : JobGroup) (h : jg ∈ job_groups_values nset rd lkp) (hj : jg.job_id = none) :
    jg = normal_none_group nset rd lkp ∨ jg = tpu_none_group nset rd lkp := by
  rcases List.mem_append.mp h with h' | h'
  · exfalso
    rcases List.mem_map.mp h' with ⟨kv, hkv, rfl⟩
    have := job_groups_jobs_entry lkp nset rd.jobs kv hkv
    rw [this] at hj
    cases hj
  · rcases List.mem_cons.mp h' with rfl | h''
    · exact Or.inl rfl
    · exact Or.inr (List.mem_singleton.mp h'')

theorem dkeys_map_values {κ β : Type} (d : List (κ × β)) (f : κ × β → β) :
    dkeys (d.map (fun kv => (kv.1, f kv))) = dkeys d := by
  unfold dkeys
  rw [List.map_map]
  rfl

theorem foldl_dupdate_keys_nodup {κ β α : Type} [DecidableEq κ]
    (step : α → List (κ × β)) (bs : List α) (acc : List (κ × β))
    (hacc : (dkeys acc).Nodup) :
    (dkeys (bs.foldl (fun d b => dupdate d (step b)) acc)).Nodup := by
  induction bs generalizing acc with
  | nil => simpa using hacc
  | cons b rest ih =>
    simp only [List.foldl_cons]
    exact ih (dupdate acc (step b)) (dkeys_dupdate_nodup acc (step b) hacc)

theorem cpg_keys_nodup (lkp : Lookup) (nl : List Node) (j : Nat) :
    (dkeys (create_placement_groups lkp nl j)).Nodup :=
  foldl_dupdate_keys_nodup _ (nodeset_map lkp nl) [] (by simp [dkeys])

theorem jg_pgs_keys_nodup (nset : List Node) (rd : ResumeData Node) (lkp : Lookup)
    (jg : JobGroup) (hjg : jg ∈ job_groups_values nset rd lkp) :
    (dkeys jg.placement_groups).Nodup := by
  rcases jg_cases nset rd lkp jg hjg with ⟨job, -, rfl⟩ | rfl | rfl
  · unfold job_group_of
    by_cases htpu : lkp.partition_is_tpu job.partition = true
    · rw [if_pos htpu]
      simp [dkeys]
    · rw [if_neg htpu]
      simp only
      rw [dkeys_map_values]
      exact cpg_keys_nodup lkp job.nodes_alloc job.job_id
  · unfold normal_none_group
    simp only
    exact cpg_keys_nodup lkp _ 0
  · unfold tpu_none_group
    simp [dkeys]

theorem normal_none_nodes_conventional (nset : List Node) (rd : ResumeData Node)
    (lkp : Lookup) (pgkv : Option String × List Node)
    (h : pgkv ∈ (normal_none_group nset rd lkp).placement_groups)
    (x : Node) (hx : x ∈ pgkv.2) : lkp.node_is_tpu x = false := by
  unfold normal_none_group at h
  simp only at h
  have hsub := (cpg_entry_spec lkp (pysort (jobless_nodes nset rd lkp)) 0 pgkv h).1 x hx
  exact (mem_jobless nset rd lkp x ((mem_pysort _ x).mp hsub)).2

theorem tpu_none_nodes_tpu (nset : List Node) (rd : ResumeData Node)
    (lkp : Lookup) (pgkv : Option String × List Node)
    (h : pgkv ∈ (tpu_none_group nset rd lkp).placement_groups)
    (x : Node) (hx : x ∈ pgkv.2) : lkp.node_is_tpu x = true := by
  unfold tpu_none_group at h
  simp only at h
  rcases List.mem_singleton.mp h with rfl
  exact (mem_jobless_tpu nset rd lkp x ((mem_pysort _ x).mp hx)).2

/-! ### Claim C3: group-identifier fields -/

theorem name_fields_some (c : BulkChunk) (pg : String) (h : c.placement_group = some pg) :
    name_fields c = [c.pfx.data, 'j' :: 'o' :: 'b' :: (job_str c.job_id).data, pg.data,
      (natStr c.chunk_idx).data] := by
  unfold name_fields
  rw [h]

theorem name_fields_none_some (c : BulkChunk) (j : Nat) (h1 : c.placement_group = none)
    (h2 : c.job_id = some j) :
    name_fields c = [c.pfx.data, 'j' :: 'o' :: 'b' :: (natStr j).data,
      (natStr c.chunk_idx).data] := by
  unfold name_fields
  rw [h1, h2]

theorem name_fields_none_none (c : BulkChunk) (h1 : c.placement_group = none)
    (h2 : c.job_id = none) :
    name_fields c = [c.pfx.data, (natStr c.chunk_idx).data] := by
  unfold name_fields
  rw [h1, h2]

theorem name_fields_ne_nil (c : BulkChunk) : name_fields c ≠ [] := by
  rcases h1 : c.placement_group with _ | pg
  · rcases h2 : c.job_id with _ | j
    · rw [name_fields_none_none c h1 h2]; simp
    · rw [name_fields_none_some c j h1 h2]; simp
  · rw [name_fields_some c pg h1]; simp

theorem name_fields_colon_free (c : BulkChunk) (h1 : ':' ∉ c.pfx.data)
    (h2 : ∀ g, c.placement_group = some g → ':' ∉ g.data) :
    ∀ f ∈ name_fields c, ':' ∉ f := by
  intro f hf
  rcases hpg : c.placement_group with _ | pg
  · rcases hj : c.job_id with _ | j
    · rw [name_fields_none_none c hpg hj] at hf
      rcases List.mem_cons.mp hf with rfl | hf'
      · exact h1
      · rcases List.mem_singleton.mp hf' with rfl
        exact natStr_no_colon c.chunk_idx
    · rw [name_fields_none_some c j hpg hj] at hf
      rcases List.mem_cons.mp hf with rfl | hf'
      · exact h1
      rcases List.mem_cons.mp hf' with rfl | hf''
      · intro hmem
        rcases List.mem_cons.mp hmem with h' | hmem'
        · exact absurd h' (by decide)
        rcases List.mem_cons.mp hmem' with h' | hmem''
        · exact absurd h' (by decide)
        rcases List.mem_cons.mp hmem'' with h' | hmem'''
        · exact absurd h' (by decide)
        · exact natStr_no_colon j hmem'''
      · rcases List.mem_singleton.mp hf'' with rfl
        exact natStr_no_colon c.chunk_idx
  · rw [name_fields_some c pg hpg] at hf
    rcases List.mem_cons.mp hf with rfl | hf'
    · exact h1
    rcases List.mem_cons.mp hf' with rfl | hf''
    · intro hmem
      rcases List.mem_cons.mp hmem with h' | hmem'
      · exact absurd h' (by decide)
      rcases List.mem_cons.mp hmem' with h' | hmem''
      · exact absurd h' (by decide)
      rcases List.mem_cons.mp hmem'' with h' | hmem'''
      · exact absurd h' (by decide)
      · exact job_str_no_colon c.job_id hmem'''
    rcases List.mem_cons.mp hf'' with rfl | hf'''
    · exact h2 pg hpg
    · rcases List.mem_singleton.mp hf''' with rfl
      exact natStr_no_colon c.chunk_idx

theorem chunk_pfx_colon_free (nset : List Node) (rd : ResumeData Node) (lkp : Lookup)
    (hpfx : ∀ n, ':' ∉ (lkp.node_pfx n).data) (c : BulkChunk)
    (h : c ∈ grouped_nodes_core nset rd lkp) : ':' ∉ c.pfx.data := by
  rcases (mem_grouped_nodes_core nset rd lkp c).mp h with
    ⟨jg, hjg, pgkv, hpgkv, prkv, hprkv, ic, hic, rfl⟩
  rcases (mem_groupby_unsorted pgkv.2 _ prkv.1 prkv.2 (by simpa using hprkv)).2 with
    ⟨x, -, hxk⟩
  simpa [← hxk] using hpfx x

theorem chunk_pg_colon_free (nset : List Node) (rd : ResumeData Node) (lkp : Lookup)
    (hclu : ':' ∉ lkp.cluster_name.data)
    (hns : ∀ s, ':' ∉ (lkp.cfg_nodeset s).nodeset_name.data) (c : BulkChunk)
    (h : c ∈ grouped_nodes_core nset rd lkp) :
    ∀ g, c.placement_group = some g → ':' ∉ g.data := by
  rcases (mem_grouped_nodes_core nset rd lkp c).mp h with
    ⟨jg, hjg, pgkv, hpgkv, prkv, hprkv, ic, hic, rfl⟩
  intro g hg
  rcases ((jg_pgs_spec nset rd lkp jg hjg pgkv hpgkv).2 g (by simpa using hg)) with
    ⟨-, s, jid, i, rfl⟩
  exact pg_name_no_colon lkp _ jid i hclu (hns s)

/-- A chunk of the Normal_None group and a chunk of the TPU_None group can
never carry the same prefix: all nodes of the former are conventional, all
nodes of the latter are accelerator nodes, and accelerator-ness is a function
of the prefix. -/
theorem none_mixed_absurd (nset : List Node) (rd : ResumeData Node) (lkp : Lookup)
    (pgkv₁ : Option String × List Node)
    (hpgkv₁ : pgkv₁ ∈ (normal_none_group nset rd lkp).placement_groups)
    (prkv₁ : String × List Node)
    (hprkv₁ : prkv₁ ∈ groupby_unsorted pgkv₁.2 (fun n => lkp.node_pfx n))
    (ic₁ : Nat × List Node) (hic₁ : ic₁ ∈ (chunk_nodes lkp prkv₁.2).enum)
    (pgkv₂ : Option String × List Node)
    (hpgkv₂ : pgkv₂ ∈ (tpu_none_group nset rd lkp).placement_groups)
    (prkv₂ : String × List Node)
    (hprkv₂ : prkv₂ ∈ groupby_unsorted pgkv₂.2 (fun n => lkp.node_pfx n))
    (ic₂ : Nat × List Node) (hic₂ : ic₂ ∈ (chunk_nodes lkp prkv₂.2).enum)
    (hpf : prkv₁.1 = prkv₂.1) : False := by
  have hch₁ : ic₁.2 ∈ chunk_nodes lkp prkv₁.2 := mem_enum_snd_mem _ ic₁.1 ic₁.2 hic₁
  rcases chunk_nodes_spec lkp prkv₁.2 ic₁.2 hch₁ with ⟨hne₁, -, hsub₁, -, -⟩
  have hx₁ : ic₁.2.headD 0 ∈ ic₁.2 := headD_mem ic₁.2 0 hne₁
  have hx₁b : ic₁.2.headD 0 ∈ prkv₁.2 := hsub₁ _ hx₁
  have hx₁pg : ic₁.2.headD 0 ∈ pgkv₁.2 :=
    groupby_unsorted_bucket_sub pgkv₁.2 _ prkv₁.1 prkv₁.2 hprkv₁ _ hx₁b
  have hfalse := normal_none_nodes_conventional nset rd lkp pgkv₁ hpgkv₁ _ hx₁pg
  have hk₁ : lkp.node_pfx (ic₁.2.headD 0) = prkv₁.1 :=
    groupby_unsorted_bucket_key pgkv₁.2 _ prkv₁.1 prkv₁.2 hprkv₁ _ hx₁b
  have hch₂ : ic₂.2 ∈ chunk_nodes lkp prkv₂.2 := mem_enum_snd_mem _ ic₂.1 ic₂.2 hic₂
  rcases chunk_nodes_spec lkp prkv₂.2 ic₂.2 hch₂ with ⟨hne₂, -, hsub₂, -, -⟩
  have hx₂ : ic₂.2.headD 0 ∈ ic₂.2 := headD_mem ic₂.2 0 hne₂
  have hx₂b : ic₂.2.headD 0 ∈ prkv₂.2 := hsub₂ _ hx₂
  have hx₂pg : ic₂.2.headD 0 ∈ pgkv₂.2 :=
    groupby_unsorted_bucket_sub pgkv₂.2 _ prkv₂.1 prkv₂.2 hprkv₂ _ hx₂b
  have htrue := tpu_none_nodes_tpu nset rd lkp pgkv₂ hpgkv₂ _ hx₂pg
  have hk₂ : lkp.node_pfx (ic₂.2.headD 0) = prkv₂.1 :=
    groupby_unsorted_bucket_key pgkv₂.2 _ prkv₂.1 prkv₂.2 hprkv₂ _ hx₂b
  have hsame : lkp.node_is_tpu (ic₁.2.headD 0) = lkp.node_is_tpu (ic₂.2.headD 0) := by
    unfold Lookup.node_is_tpu Lookup.node_nodeset
    rw [hk₁, hk₂, hpf]
  rw [hfalse, htrue] at hsame
  cases hsame

/-- Two chunks of one grouped_nodes comprehension agreeing on job id,
placement group, prefix and chunk index are the same chunk. -/
theorem grouped_chunk_determined (nset : List Node) (rd : ResumeData Node) (lkp : Lookup)
    (c₁ c₂ : BulkChunk) (h₁ : c₁ ∈ grouped_nodes_core nset rd lkp)
    (h₂ : c₂ ∈ grouped_nodes_core nset rd lkp)
    (hj : c₁.job_id = c₂.job_id) (hpg : c₁.placement_group = c₂.placement_group)
    (hpf : c₁.pfx = c₂.pfx) (hidx : c₁.chunk_idx = c₂.chunk_idx) : c₁ = c₂ := by
  rcases (mem_grouped_nodes_core nset rd lkp c₁).mp h₁ with
    ⟨jg₁, hjg₁, pgkv₁, hpgkv₁, prkv₁, hprkv₁, ic₁, hic₁, rfl⟩
  rcases (mem_grouped_nodes_core nset rd lkp c₂).mp h₂ with
    ⟨jg₂, hjg₂, pgkv₂, hpgkv₂, prkv₂, hprkv₂, ic₂, hic₂, rfl⟩
  have hj' : jg₁.job_id = jg₂.job_id := hj
  have hpg' : pgkv₁.1 = pgkv₂.1 := hpg
  have hpf' : prkv₁.1 = prkv₂.1 := hpf
  have hidx' : ic₁.1 = ic₂.1 := hidx
  have hjgeq : jg₁ = jg₂ := by
    rcases hcase : jg₁.job_id with _ | j
    · have hcase₂ : jg₂.job_id = none := by rw [← hj', hcase]
      rcases jg_none_cases nset rd lkp jg₁ hjg₁ hcase with h1n | h1t <;>
        rcases jg_none_cases nset rd lkp jg₂ hjg₂ hcase₂ with h2n | h2t
      · rw [h1n, h2n]
      · exfalso
        rw [h1n] at hpgkv₁
        rw [h2t] at hpgkv₂
        exact none_mixed_absurd nset rd lkp pgkv₁ hpgkv₁ prkv₁ hprkv₁ ic₁ hic₁
          pgkv₂ hpgkv₂ prkv₂ hprkv₂ ic₂ hic₂ hpf'
      · exfalso
        rw [h1t] at hpgkv₁
        rw [h2n] at hpgkv₂
        exact none_mixed_absurd nset rd lkp pgkv₂ hpgkv₂ prkv₂ hprkv₂ ic₂ hic₂
          pgkv₁ hpgkv₁ prkv₁ hprkv₁ ic₁ hic₁ hpf'.symm
      · rw [h1t, h2t]
    · have hcase₂ : jg₂.job_id = some j := by rw [← hj', hcase]
      exact jg_some_unique nset rd lkp jg₁ jg₂ j hjg₁ hjg₂ hcase hcase₂
  subst hjgeq
  have hmem₁ : (pgkv₂.1, pgkv₁.2) ∈ jg₁.placement_groups := by
    rw [← hpg']
    exact hpgkv₁
  have hvals : pgkv₁.2 = pgkv₂.2 :=
    dict_key_unique jg₁.placement_groups (jg_pgs_keys_nodup nset rd lkp jg₁ hjg₁)
      pgkv₂.1 pgkv₁.2 pgkv₂.2 hmem₁ hpgkv₂
  have hpgkveq : pgkv₁ = pgkv₂ := Prod.ext hpg' hvals
  subst hpgkveq
  have hfil₁ := (mem_groupby_unsorted pgkv₁.2 (fun n => lkp.node_pfx n)
    prkv₁.1 prkv₁.2 hprkv₁).1
  have hfil₂ := (mem_groupby_unsorted pgkv₁.2 (fun n => lkp.node_pfx n)
    prkv₂.1 prkv₂.2 hprkv₂).1
  have hprkveq : prkv₁ = prkv₂ := by
    refine Prod.ext hpf' ?_
    rw [hfil₁, hfil₂, hpf']
  subst hprkveq
  have hmem₂ : (ic₂.1, ic₁.2) ∈ (chunk_nodes lkp prkv₁.2).enum := by
    rw [← hidx']
    exact hic₁
  have hiceq : ic₁ = ic₂ :=
    Prod.ext hidx' (mem_enum_unique _ ic₂.1 ic₁.2 ic₂.2 hmem₂ hic₂)
  subst hiceq
  rfl

/-- group_name is injective over the chunks of one invocation, provided the
node prefixes, the cluster name and the nodeset names are colon-free. -/
theorem grouped_name_inj (nset : List Node) (rd : ResumeData Node) (lkp : Lookup)
    (hpfx : ∀ n, ':' ∉ (lkp.node_pfx n).data)
    (hclu : ':' ∉ lkp.cluster_name.data)
    (hns : ∀ s, ':' ∉ (lkp.cfg_nodeset s).nodeset_name.data)
    (c₁ c₂ : BulkChunk) (h₁ : c₁ ∈ grouped_nodes_core nset rd lkp)
    (h₂ : c₂ ∈ grouped_nodes_core nset rd lkp)
    (hname : group_name c₁ = group_name c₂) : c₁ = c₂ := by
  have hcf₁ := name_fields_colon_free c₁ (chunk_pfx_colon_free nset rd lkp hpfx c₁ h₁)
    (chunk_pg_colon_free nset rd lkp hclu hns c₁ h₁)
  have hcf₂ := name_fields_colon_free c₂ (chunk_pfx_colon_free nset rd lkp hpfx c₂ h₂)
    (chunk_pg_colon_free nset rd lkp hclu hns c₂ h₂)
  have hfields : name_fields c₁ = name_fields c₂ := by
    refine joinColon_inj _ _ hcf₁ hcf₂ (name_fields_ne_nil c₁) (name_fields_ne_nil c₂) ?_
    have hd := congrArg String.data hname
    rwa [group_name_data, group_name_data] at hd
  rcases hpg₁ : c₁.placement_group with _ | g₁ <;>
    rcases hpg₂ : c₂.placement_group with _ | g₂
  · rcases hj₁ : c₁.job_id with _ | j₁ <;> rcases hj₂ : c₂.job_id with _ | j₂
    · rw [name_fields_none_none c₁ hpg₁ hj₁, name_fields_none_none c₂ hpg₂ hj₂] at hfields
      simp only [List.cons.injEq, and_true] at hfields
      obtain ⟨e1, e2⟩ := hfields
      exact grouped_chunk_determined nset rd lkp c₁ c₂ h₁ h₂ (by rw [hj₁, hj₂])
        (by rw [hpg₁, hpg₂]) (String.ext e1)
        (natStr_injective _ _ (String.ext e2))
    · rw [name_fields_none_none c₁ hpg₁ hj₁, name_fields_none_some c₂ j₂ hpg₂ hj₂] at hfields
      exact absurd (congrArg List.length hfields) (by simp)
    · rw [name_fields_none_some c₁ j₁ hpg₁ hj₁, name_fields_none_none c₂ hpg₂ hj₂] at hfields
      exact absurd (congrArg List.length hfields) (by simp)
    · rw [name_fields_none_some c₁ j₁ hpg₁ hj₁, name_fields_none_some c₂ j₂ hpg₂ hj₂] at hfields
      simp only [List.cons.injEq, and_true, true_and] at hfields
      obtain ⟨e1, e2, e3⟩ := hfields
      have hjeq : j₁ = j₂ := natStr_injective _ _ (String.ext e2)
      exact grouped_chunk_determined nset rd lkp c₁ c₂ h₁ h₂ (by rw [hj₁, hj₂, hjeq])
        (by rw [hpg₁, hpg₂]) (String.ext e1)
        (natStr_injective _ _ (String.ext e3))
  · rw [name_fields_some c₂ g₂ hpg₂] at hfields
    rcases hj₁ : c₁.job_id with _ | j₁
    · rw [name_fields_none_none c₁ hpg₁ hj₁] at hfields
      exact absurd (congrArg List.length hfields) (by simp)
    · rw [name_fields_none_some c₁ j₁ hpg₁ hj₁] at hfields
      exact absurd (congrArg List.length hfields) (by simp)
  · rw [name_fields_some c₁ g₁ hpg₁] at hfields
    rcases hj₂ : c₂.job_id with _ | j₂
    · rw [name_fields_none_none c₂ hpg₂ hj₂] at hfields
      exact absurd (congrArg List.length hfields) (by simp)
    · rw [name_fields_none_some c₂ j₂ hpg₂ hj₂] at hfields
      exact absurd (congrArg List.length hfields) (by simp)
  · rw [name_fields_some c₁ g₁ hpg₁, name_fields_some c₂ g₂ hpg₂] at hfields
    simp only [List.cons.injEq, and_true, true_and] at hfields
    obtain ⟨e1, e2, e3, e4⟩ := hfields
    have hjeq : c₁.job_id = c₂.job_id := job_str_inj _ _ (String.ext e2)
    exact grouped_chunk_determined nset rd lkp c₁ c₂ h₁ h₂ hjeq
      (by rw [hpg₁, hpg₂, String.ext e3]) (String.ext e1)
      (natStr_injective _ _ (String.ext e4))

/-- C3 counterexample: a jobless chunk of a placement-enabled nodeset gets the
identifier p:jobNone:c-slurmgcp-managed-n-0-0:0 — the job id component is not
omitted when the chunk has no job id; the f-string renders the literal None
(resume.py line 312), so the name differs from the format the claim states. -/
theorem c3_format_counterexample :
    ∃ kv ∈ group_nodes_bulk [0, 1] none lkpC3,
      kv.2.placement_group.isSome = true ∧ kv.2.job_id = none ∧
      kv.1 = "p:jobNone:c-slurmgcp-managed-n-0-0:0" ∧
      kv.1 ≠ spec_group_name kv.2 := by
  decide

/-- C3 (amended): every key of the mapping returned by group_nodes_bulk is
group_name of its chunk, where group_name renders a missing job id as the
literal None inside the job component (rather than omitting the component);
and provided the node prefixes, the cluster name and the nodeset names are
colon-free, group_name is injective over the chunks of one invocation, so no
two distinct chunks receive the same identifier. -/
theorem c3_group_identity (nodes : List Node) (rd : Option (ResumeData Node)) (lkp : Lookup)
    (hpfx : ∀ n, ':' ∉ (lkp.node_pfx n).data)
    (hclu : ':' ∉ lkp.cluster_name.data)
    (hns : ∀ s, ':' ∉ (lkp.cfg_nodeset s).nodeset_name.data) :
    (∀ kv ∈ group_nodes_bulk nodes rd lkp, kv.1 = group_name kv.2) ∧
    (∀ c₁ ∈ grouped_nodes_of nodes rd lkp, ∀ c₂ ∈ grouped_nodes_of nodes rd lkp,
      group_name c₁ = group_name c₂ → c₁ = c₂) := by
  refine ⟨fun kv hkv => (mem_group_nodes_bulk nodes rd lkp kv hkv).1, ?_⟩
  intro c₁ h₁ c₂ h₂ hname
  exact grouped_name_inj (sortDedup nodes) (rd.getD { jobs := [] }) lkp hpfx hclu hns
    c₁ c₂ h₁ h₂ hname

/-- C3 witness: the amended theorem applied to the concrete colon-free
configuration lkpC3 on the node list [0, 1]. -/
theorem c3_group_identity_witness :
    (∀ kv ∈ group_nodes_bulk [0, 1] none lkpC3, kv.1 = group_name kv.2) ∧
    (∀ c₁ ∈ grouped_nodes_of [0, 1] none lkpC3, ∀ c₂ ∈ grouped_nodes_of [0, 1] none lkpC3,
      group_name c₁ = group_name c₂ → c₁ = c₂) :=
  c3_group_identity [0, 1] none lkpC3
    (fun n => by show ':' ∉ ("p" : String).data; decide)
    (by decide)
    (fun s => by show ':' ∉ ("n" : String).data; decide)
